import Mathlib

/-
Verification development for the openproject-jira-importer migration engine
(src/index.js). The JavaScript code is shallowly embedded: JSON-like runtime
values become the inductive type JsVal, property access and loose equality
follow the JavaScript semantics at the call sites that occur in the source,
exceptions become Except, and the per-issue migration loop becomes a fold
over an environment describing the outcome of each external API call.
-/

namespace OPJM

/-- Model of a JavaScript runtime value as it occurs in API payloads:
undefined, null, booleans, numbers (integers suffice for the data handled
here), strings, arrays and plain objects (ordered field lists). -/
inductive JsVal : Type where
  | undefined : JsVal
  | null : JsVal
  | bool : Bool → JsVal
  | num : Int → JsVal
  | str : String → JsVal
  | arr : List JsVal → JsVal
  | obj : List (String × JsVal) → JsVal

/-- Exceptions the embedded code can raise on its own: the TypeError raised
by a property access on a nullish value or by iterating a non-iterable, and
a fuel marker used only to make the recursion in getErrors structural; the
fuel bound chosen in getErrorsData is proved sufficient, so the marker is
proved unreachable. -/
inductive JsErr : Type where
  | typeError : JsErr
  | fuel : JsErr
deriving DecidableEq

/-- Nullish check (null or undefined), the condition guarding both optional
chaining and the TypeError on plain property access. -/
def JsVal.isNullish : JsVal → Bool
  | .undefined => true
  | .null => true
  | _ => false

/-- JavaScript falsiness for the values of the model: undefined, null,
false, 0 and the empty string are falsy, arrays and objects are truthy. -/
def JsVal.isFalsy : JsVal → Bool
  | .undefined => true
  | .null => true
  | .bool b => !b
  | .num n => n == 0
  | .str s => s == ""
  | .arr _ => false
  | .obj _ => false

/-- First binding of a key in an object field list, as JavaScript property
lookup on the plain data objects handled here. -/
def objLookup : List (String × JsVal) → String → Option JsVal
  | [], _ => none
  | (k, v) :: rest, key => if k = key then some v else objLookup rest key

/-- Property access v.key on a value already known to be non-nullish.
Objects yield the bound field or undefined; arrays and strings expose only
length among the keys read by this program; numbers and booleans have none
of the accessed properties. -/
def jsProp : JsVal → String → JsVal
  | .obj fs, key => (objLookup fs key).getD .undefined
  | .arr xs, key => if key = "length" then .num xs.length else .undefined
  | .str s, key => if key = "length" then .num s.length else .undefined
  | _, _ => .undefined

/-- Optional-chaining access v?.key: undefined when v is nullish, plain
access otherwise. -/
def jsPropOpt (v : JsVal) (key : String) : JsVal :=
  if v.isNullish then .undefined else jsProp v key

mutual

/-- Array.prototype.join with the given separator: each element converted
to a string with null and undefined becoming empty, exactly the conversion
JavaScript applies inside join. -/
def jsJoin : List JsVal → String → String
  | [], _ => ""
  | [x], _ => jsElemToStr x
  | x :: y :: xs, sep => jsElemToStr x ++ sep ++ jsJoin (y :: xs) sep

/-- Element conversion used by join: null and undefined become the empty
string, primitives print canonically, arrays recurse through their own
toString (a comma join), plain objects print as [object Object]. -/
def jsElemToStr : JsVal → String
  | .undefined => ""
  | .null => ""
  | .bool b => cond b "true" "false"
  | .num n => toString n
  | .str s => s
  | .arr xs => jsJoin xs ","
  | .obj _ => "[object Object]"

end

/-- Loose equality v == s against a string literal. Every literal compared
in the source (the Error type tag and the two error identifiers) is
non-numeric, so numbers, booleans, null and undefined compare false; a
string compares by value; arrays and objects are coerced through their
toString before the comparison, as JavaScript does. -/
def looseEqStr (v : JsVal) (s : String) : Bool :=
  match v with
  | .str t => t = s
  | .arr xs => jsJoin xs "," = s
  | .obj _ => "[object Object]" = s
  | _ => false

/-- Semantics of a for..of loop head: arrays iterate their elements,
strings iterate their characters as one-character strings, everything else
raises a TypeError. -/
def jsIterate : JsVal → Except JsErr (List JsVal)
  | .arr xs => .ok xs
  | .str s => .ok (s.toList.map fun c => .str (String.mk [c]))
  | _ => .error .typeError

mutual

/-- Structural weight of a value, used to bound the recursion depth of the
error classifier: strictly larger than the weight of any value reachable
through object fields or array elements. -/
def jsW : JsVal → Nat
  | .arr xs => 1 + jsWList xs
  | .obj fs => 1 + jsWFields fs
  | _ => 0

/-- Sum of the weights of the elements of an array. -/
def jsWList : List JsVal → Nat
  | [] => 0
  | x :: xs => jsW x + jsWList xs

/-- Weight of an object field list, counting one per field on top of the
weights of the field values. -/
def jsWFields : List (String × JsVal) → Nat
  | [] => 0
  | (_, v) :: fs => 1 + jsW v + jsWFields fs

end

/-- One classified error: the errorIdentifier of the envelope together
with the details object found under its _embedded field, exactly the
record pushed by getErrors in src/index.js. -/
structure ErrEntry : Type where
  error : JsVal
  details : JsVal

/-- Identifier of the composite multiple-errors envelope. -/
def multipleErrorsId : String :=
  "urn:openproject-org:api:v3:errors:MultipleErrors"

/-- Identifier of a property constraint violation. -/
def propertyConstraintViolationId : String :=
  "urn:openproject-org:api:v3:errors:PropertyConstraintViolation"

/-- Body of the for..of loop over the embedded sub-errors of a composite
envelope: classify every sub-error with the given classifier and
concatenate the results in order, the first exception propagating. -/
def getErrorsLoop (f : JsVal → Except JsErr (List ErrEntry)) :
    List JsVal → Except JsErr (List ErrEntry)
  | [] => .ok []
  | sub :: rest =>
    match f sub with
    | .error er => .error er
    | .ok es =>
      match getErrorsLoop f rest with
      | .error er => .error er
      | .ok tail => .ok (es ++ tail)

/-- Fuel-indexed classifier body. The argument d stands for the body
e.response.data of the failure response: the recursive call of getErrors
in src/index.js rebuilds a response wrapper around each sub-error and
immediately projects the body back out, so the recursion is a function of
the body alone. Every access follows the source line by line: the guarded
chain e?.response?.data?._type, the loose comparisons of the type tag and
of errorIdentifier, the unguarded accesses _embedded.errors and
_embedded.details which raise a TypeError when _embedded is nullish, and
the for..of loop over the sub-errors. The fuel only makes the recursion
structural; getErrorsData supplies a bound proved large enough. -/
def getErrorsDataF : Nat → JsVal → Except JsErr (List ErrEntry)
  | 0, _ => .error .fuel
  | fuelLeft + 1, d =>
    if looseEqStr (jsPropOpt d "_type") "Error" then
      if looseEqStr (jsProp d "errorIdentifier") multipleErrorsId then
        if (jsProp d "_embedded").isNullish then .error .typeError
        else
          match jsIterate (jsProp (jsProp d "_embedded") "errors") with
          | .error er => .error er
          | .ok items => getErrorsLoop (getErrorsDataF fuelLeft) items
      else
        if (jsProp d "_embedded").isNullish then .error .typeError
        else
          .ok [⟨jsProp d "errorIdentifier",
                jsProp (jsProp d "_embedded") "details"⟩]
    else
      .ok []

/-- Classifier on a response body, run with sufficient fuel. -/
def getErrorsData (d : JsVal) : Except JsErr (List ErrEntry) :=
  getErrorsDataF (jsW d + 1) d

/-- The body e?.response?.data that getErrors inspects. -/
def responseBody (e : JsVal) : JsVal :=
  jsPropOpt (jsPropOpt e "response") "data"

/-- Model of getErrors (src/index.js lines 62 to 75): classify a failure
response into the flat list of classified entries, or raise the TypeError
the source raises on a malformed Error envelope. -/
def getErrors (e : JsVal) : Except JsErr (List ErrEntry) :=
  getErrorsData (responseBody e)

/-- The wrapper the source builds around a sub-error before the recursive
call: an object with a response field holding an object with a data field
holding the sub-error. -/
def wrapResp (sub : JsVal) : JsVal :=
  .obj [("response", .obj [("data", sub)])]

/-- Map each classified entry to its attribute when its error identifier
compares loosely equal to the property constraint violation identifier,
and to null otherwise; the optional chain error?.details?.attribute of the
source becomes an optional access on the details value. Models lines 241
to 246 and 337 to 342 of src/index.js. -/
def remediableAttrs (entries : List ErrEntry) : List JsVal :=
  entries.map fun en =>
    if looseEqStr en.error propertyConstraintViolationId then
      jsPropOpt en.details "attribute"
    else
      .null

/-- Strict equality of a value against a string literal: only the string
itself matches, exactly the comparison Array.prototype.includes uses. -/
def jsStrictEqStr (v : JsVal) (s : String) : Bool :=
  match v with
  | .str t => t = s
  | _ => false

/-- Array.prototype.includes against a string literal. -/
def includesStr (vs : List JsVal) (s : String) : Bool :=
  vs.any fun v => jsStrictEqStr v s

/-- The property key produced when a user id is used as an object key in
the toAdd object of the source: null becomes the string null, a number
becomes its decimal string. -/
def jsIdKey : Option Int → String
  | none => "null"
  | some i => toString i

/-- The numeric value of a decimal digit character, if it is one. -/
def decDigit? (c : Char) : Option Nat :=
  if 48 ≤ c.toNat ∧ c.toNat ≤ 57 then some (c.toNat - 48) else none

/-- Decimal value of a digit sequence, none on a non-digit. -/
def digitsVal : List Char → Nat → Option Nat
  | [], acc => some acc
  | c :: cs, acc =>
    match decDigit? c with
    | none => none
    | some d => digitsVal cs (acc * 10 + d)

/-- The value of a canonical decimal array-index key (no sign, no leading
zero), the class of keys JavaScript enumerates in ascending numeric order
before all other keys. -/
def strToIndex? (s : String) : Option Nat :=
  match s.data with
  | [] => none
  | c :: cs =>
    if c = '0' then (if cs = [] then some 0 else none)
    else digitsVal (c :: cs) 0

/-- Object.keys of the toAdd object built on lines 249 to 252 of
src/index.js. The responsible id is inserted first, then the assignee id;
a duplicate key is kept once; JavaScript enumerates integer-like keys in
ascending numeric order before the remaining keys in insertion order. -/
def toAddKeys (respId asgId : Option Int) : List String :=
  let k1 := jsIdKey respId
  let k2 := jsIdKey asgId
  if k2 = k1 then [k1]
  else
    match strToIndex? k1, strToIndex? k2 with
    | some n1, some n2 => if n2 < n1 then [k2, k1] else [k1, k2]
    | some _, none => [k1, k2]
    | none, some _ => [k2, k1]
    | none, none => [k1, k2]

/-- A value thrown out of the remediation block: either a JavaScript value
thrown by an API call (the failure envelope) or an exception raised by the
classifier itself. -/
inductive Thrown : Type where
  | js : JsVal → Thrown
  | internal : JsErr → Thrown

/-- Observable behaviour of one remediation-wrapped work package creation:
the final result, how many times createWorkPackage was invoked, and the
ordered list of addUserToProject calls issued (as the user keys they were
passed; when a grant call is rejected it is the last one issued). -/
structure RemediationTrace : Type where
  result : Except Thrown Int
  opCalls : Nat
  grants : List String

/-- The awaited addUserToProject loop of src/index.js lines 255 to 257:
the grant oracle gives the outcome of the call for each user key; calls
are issued in order, and the first rejection stops the loop, returning
the keys issued so far (the rejected one included) together with the
thrown value. -/
def grantLoop (grant : String → Except JsVal Unit) :
    List String → List String × Option JsVal
  | [] => ([], none)
  | k :: ks =>
    match grant k with
    | .error ge => ([k], some ge)
    | .ok _ =>
      let r := grantLoop grant ks
      (k :: r.1, r.2)

/-- Model of the creation path with remediation, src/index.js lines 234
to 266, with the outcomes of the external calls supplied by the
environment: the first and the possible second createWorkPackage call
(an ok work package id or a thrown failure envelope) and a grant oracle
for the addUserToProject calls. On a first failure the envelope is
classified; if the mapped attributes include assignee or responsible,
both configured ids are granted membership in object-key order
(deduplicated as object keys); a rejected grant aborts the remaining
grants and the retry and its exception propagates; when every grant
succeeds the operation is retried exactly once, its outcome final.
Otherwise the original failure is re-thrown. A classifier exception
propagates in place of the original failure. -/
def createWithRemediationG (first second : Except JsVal Int)
    (grant : String → Except JsVal Unit)
    (asgId respId : Option Int) : RemediationTrace :=
  match first with
  | .ok wp => ⟨.ok wp, 1, []⟩
  | .error e =>
    match getErrors e with
    | .error er => ⟨.error (.internal er), 1, []⟩
    | .ok entries =>
      let attrs := remediableAttrs entries
      if includesStr attrs "assignee" || includesStr attrs "responsible" then
        let ids := toAddKeys respId asgId
        match grantLoop grant ids with
        | (issued, some ge) => ⟨.error (.js ge), 1, issued⟩
        | (issued, none) =>
          match second with
          | .ok wp => ⟨.ok wp, 2, issued⟩
          | .error e2 => ⟨.error (.js e2), 2, issued⟩
      else
        ⟨.error (.js e), 1, []⟩

/-- The creation path at an always-succeeding grant oracle: the instance
of the model the migration engine uses, appropriate there because the
engine claims under study involve no grant failures. Proven equal to
createWithRemediationG at the trivial oracle (createWithRemediation_eq
below). -/
def createWithRemediation (first second : Except JsVal Int)
    (asgId respId : Option Int) : RemediationTrace :=
  match first with
  | .ok wp => ⟨.ok wp, 1, []⟩
  | .error e =>
    match getErrors e with
    | .error er => ⟨.error (.internal er), 1, []⟩
    | .ok entries =>
      let attrs := remediableAttrs entries
      if includesStr attrs "assignee" || includesStr attrs "responsible" then
        let ids := toAddKeys respId asgId
        match second with
        | .ok wp => ⟨.ok wp, 2, ids⟩
        | .error e2 => ⟨.error (.js e2), 2, ids⟩
      else
        ⟨.error (.js e), 1, []⟩

/-- Observable behaviour of one remediation-wrapped addWatcher call: the
final result, the number of addWatcher invocations, and the user ids for
which an addUserToProject call was issued. -/
structure WatcherTrace : Type where
  result : Except Thrown Unit
  opCalls : Nat
  grants : List Int

/-- Model of the watcher path with remediation, src/index.js lines 331 to
354: same pattern as creation, with the single remediable attribute user
and a single candidate identity, the watcher id. The grant argument is
the outcome of the single addUserToProject call; its rejection suppresses
the addWatcher retry and propagates. -/
def addWatcherWithRemediationG (first second : Except JsVal Unit)
    (grant : Except JsVal Unit) (watcherId : Int) : WatcherTrace :=
  match first with
  | .ok _ => ⟨.ok (), 1, []⟩
  | .error e =>
    match getErrors e with
    | .error er => ⟨.error (.internal er), 1, []⟩
    | .ok entries =>
      let attrs := remediableAttrs entries
      if includesStr attrs "user" then
        match grant with
        | .error ge => ⟨.error (.js ge), 1, [watcherId]⟩
        | .ok _ =>
          match second with
          | .ok _ => ⟨.ok (), 2, [watcherId]⟩
          | .error e2 => ⟨.error (.js e2), 2, [watcherId]⟩
      else
        ⟨.error (.js e), 1, []⟩

/-- The watcher path at a succeeding grant: the instance of the model the
migration engine uses. Proven equal to addWatcherWithRemediationG at the
ok grant (addWatcherWithRemediation_eq below). -/
def addWatcherWithRemediation (first second : Except JsVal Unit)
    (watcherId : Int) : WatcherTrace :=
  match first with
  | .ok _ => ⟨.ok (), 1, []⟩
  | .error e =>
    match getErrors e with
    | .error er => ⟨.error (.internal er), 1, []⟩
    | .ok entries =>
      let attrs := remediableAttrs entries
      if includesStr attrs "user" then
        match second with
        | .ok _ => ⟨.ok (), 2, [watcherId]⟩
        | .error e2 => ⟨.error (.js e2), 2, [watcherId]⟩
      else
        ⟨.error (.js e), 1, []⟩

/-- Render the inline runs of one block: each run contributes its text
property, a nullish run raising the TypeError that c.text raises. -/
def renderInlines : List JsVal → Except JsErr (List JsVal)
  | [] => .ok []
  | c :: cs =>
    if c.isNullish then .error .typeError
    else
      match renderInlines cs with
      | .error er => .error er
      | .ok rest => .ok (jsProp c "text" :: rest)

/-- Render one top-level block, src/index.js line 393: a nullish block
raises on the block.content access; the optional chain yields the empty
string when content is nullish (the or-empty fallback of the source); a
content array maps its runs to their text joined with the empty separator;
a non-array non-nullish content raises because map is not a function. -/
def renderBlock (block : JsVal) : Except JsErr String :=
  if block.isNullish then .error .typeError
  else
    match jsProp block "content" with
    | .undefined => .ok ""
    | .null => .ok ""
    | .arr cs =>
      match renderInlines cs with
      | .error er => .error er
      | .ok texts => .ok (jsJoin texts "")
    | _ => .error .typeError

/-- Render every top-level block in order, the first exception winning. -/
def renderBlocks : List JsVal → Except JsErr (List String)
  | [] => .ok []
  | b :: bs =>
    match renderBlock b with
    | .error er => .error er
    | .ok line =>
      match renderBlocks bs with
      | .error er => .error er
      | .ok rest => .ok (line :: rest)

/-- Leading characters satisfying the whitespace predicate, dropped. -/
def dropLeadingWs : List Char → List Char
  | [] => []
  | c :: cs => if c.isWhitespace then dropLeadingWs cs else c :: cs

/-- String.prototype.trim: whitespace removed from both ends. -/
def jsTrim (s : String) : String :=
  String.mk (dropLeadingWs (dropLeadingWs s.data.reverse).reverse)

/-- Model of convertAtlassianDocumentToText, src/index.js lines 386 to
402. A falsy document renders to the empty string; a string document is
returned verbatim; otherwise, when the content property is an array the
blocks are rendered, joined with a newline and trimmed, any exception in
the walk being caught and degraded to the empty string; every non-array
content yields the empty string (falsy content skips the walk, truthy
non-array content raises inside the try and is caught). -/
def convertAtlassianDocumentToText (document : JsVal) : String :=
  if document.isFalsy then ""
  else
    match document with
    | .str s => s
    | _ =>
      match jsProp document "content" with
      | .arr blocks =>
        match renderBlocks blocks with
        | .error _ => ""
        | .ok lines => jsTrim (String.intercalate "\n" lines)
      | _ => ""

/-- The part of a Jira issue the engine model reads: its key and the
structured description document. -/
structure Issue : Type where
  key : String
  description : JsVal

/-- Description placed in the work package payload, src/index.js lines 187
to 191: the plain-text rendering of the description document (the byte
round trip through Buffer.from and toString utf8 is the identity on the
rendered string). -/
def workPackageDescription (issue : Issue) : String :=
  convertAtlassianDocumentToText issue.description

/-- Canonical inline text run of an Atlassian document. -/
def mkInline (t : String) : JsVal :=
  .obj [("type", .str "text"), ("text", .str t)]

/-- Canonical top-level block holding the given inline text runs. -/
def mkBlock (ts : List String) : JsVal :=
  .obj [("type", .str "paragraph"), ("content", .arr (ts.map mkInline))]

/-- Canonical Atlassian document holding the given blocks of inline text
runs. -/
def mkDoc (blocks : List (List String)) : JsVal :=
  .obj [("type", .str "doc"), ("content", .arr (blocks.map mkBlock))]

/-- Environment of one loop iteration: the outcome of every external call
the body can make for this issue. Thrown API failures are JsVal envelopes.
The cached field is the entry of the pre-fetched work package cache for
the issue key (consulted only in skip-updates mode); lookup is the
findExistingWorkPackage call of normal mode; translate covers the payload
construction, whose type, status and priority resolutions can throw;
update and the two create outcomes carry the resulting work package id;
attachments, comments and watchers are the three sub-entity sync phases. -/
structure IssueEnv : Type where
  cached : Option Int
  lookup : Except JsVal (Option Int)
  translate : Except JsVal Unit
  update : Except JsVal Int
  createFirst : Except JsVal Int
  createSecond : Except JsVal Int
  asgId : Option Int
  respId : Option Int
  attachments : Except JsVal Unit
  comments : Except JsVal Unit
  watchers : Except JsVal Unit

/-- Terminal state of one issue: completed, skipped because it already
existed in skip-updates mode, or errored at the per-issue boundary. -/
inductive IssueOutcome : Type where
  | done : Int → IssueOutcome
  | skippedExisting : Int → IssueOutcome
  | errored : Thrown → IssueOutcome

/-- True exactly on the errored outcome. -/
def IssueOutcome.isErrored : IssueOutcome → Bool
  | .errored _ => true
  | _ => false

/-- True exactly on the done or skipped outcomes. -/
def IssueOutcome.isCounted : IssueOutcome → Bool
  | .errored _ => false
  | _ => true

/-- Observable behaviour of one loop iteration: the terminal state, the
entry written for this key into the output index (if any), and how many
update and create calls were issued. -/
structure IssueTrace : Type where
  outcome : IssueOutcome
  mapEntry : Option Int
  updateCalls : Nat
  createCalls : Nat

/-- The three sub-entity sync phases in source order (attachments, then
comments, then watchers), the first exception propagating. -/
def subEntitySync (env : IssueEnv) : Except JsVal Unit :=
  match env.attachments with
  | .error e => .error e
  | .ok _ =>
    match env.comments with
    | .error e => .error e
    | .ok _ => env.watchers

/-- Tail of the iteration after a successful create or update: the index
entry for the work package id is recorded first (line 270), then the
sub-entity sync runs; a sync exception leaves the entry in place and ends
the iteration in the errored state. -/
def afterUpsert (wpId : Int) (updateCalls createCalls : Nat)
    (env : IssueEnv) : IssueTrace :=
  match subEntitySync env with
  | .error e => ⟨.errored (.js e), some wpId, updateCalls, createCalls⟩
  | .ok _ => ⟨.done wpId, some wpId, updateCalls, createCalls⟩

/-- One iteration of the per-issue loop, src/index.js lines 149 to 369.
In skip-updates mode the existing work package comes from the cache and no
lookup call is made; otherwise findExistingWorkPackage is consulted and
may throw. An existing package in skip-updates mode is skipped, its cached
id recorded in the index. Otherwise the payload is built (which may
throw), then the package is updated when it exists or created through the
remediation wrapper when it does not, the index entry is written, and the
sub-entity phases run. Any exception anywhere ends the iteration in the
errored state. -/
def processIssue (skipUpdates : Bool) (env : IssueEnv) : IssueTrace :=
  match (if skipUpdates then .ok env.cached else env.lookup :
      Except JsVal (Option Int)) with
  | .error e => ⟨.errored (.js e), none, 0, 0⟩
  | .ok existing =>
    match existing with
    | some wid =>
      if skipUpdates then ⟨.skippedExisting wid, some wid, 0, 0⟩
      else
        match env.translate with
        | .error e => ⟨.errored (.js e), none, 0, 0⟩
        | .ok _ =>
          match env.update with
          | .error e => ⟨.errored (.js e), none, 1, 0⟩
          | .ok wpId => afterUpsert wpId 1 0 env
    | none =>
      match env.translate with
      | .error e => ⟨.errored (.js e), none, 0, 0⟩
      | .ok _ =>
        let tr := createWithRemediation env.createFirst env.createSecond
          env.asgId env.respId
        match tr.result with
        | .error th => ⟨.errored th, none, 0, tr.opCalls⟩
        | .ok wpId => afterUpsert wpId 0 tr.opCalls env

/-- Run counters and the growing output index issueToWorkPackageMap. -/
structure RunState : Type where
  processed : Nat
  skipped : Nat
  errors : Nat
  index : List (String × Int)

/-- Map.set semantics of the output index: overwrite the value of an
existing key in place, otherwise append the new binding. -/
def mapSet (m : List (String × Int)) (key : String) (v : Int) :
    List (String × Int) :=
  if m.any fun p => p.1 = key then
    m.map fun p => if p.1 = key then (key, v) else p
  else
    m ++ [(key, v)]

/-- Number of bindings a key has in the index. -/
def indexCount (m : List (String × Int)) (key : String) : Nat :=
  (m.filter fun p => p.1 = key).length

/-- Map.get semantics of the output index. -/
def indexLookup : List (String × Int) → String → Option Int
  | [], _ => none
  | (k, v) :: rest, key => if k = key then some v else indexLookup rest key

/-- The keys of the index are pairwise distinct, the Map invariant. -/
def keysNodup (m : List (String × Int)) : Prop :=
  (m.map Prod.fst).Nodup

/-- One loop iteration applied to the run state: the index entry of the
trace is written, then exactly one of the three counters is incremented
according to the terminal state. -/
def stepIssue (skipUpdates : Bool) (st : RunState)
    (item : Issue × IssueEnv) : RunState :=
  let tr := processIssue skipUpdates item.2
  let st1 :=
    match tr.mapEntry with
    | some wid => { st with index := mapSet st.index item.1.key wid }
    | none => st
  match tr.outcome with
  | .done _ => { st1 with processed := st1.processed + 1 }
  | .skippedExisting _ => { st1 with skipped := st1.skipped + 1 }
  | .errored _ => { st1 with errors := st1.errors + 1 }

/-- The per-issue loop over the whole batch. -/
def runMigration (skipUpdates : Bool) (items : List (Issue × IssueEnv))
    (st : RunState) : RunState :=
  items.foldl (stepIssue skipUpdates) st

/-- Counters and index at the start of a run, src/index.js lines 144 to
147. -/
def initialRunState : RunState := ⟨0, 0, 0, []⟩

/-- Model of migrateIssues restricted to the per-issue loop: the final run
state, whose index field is the returned issueToWorkPackageMap. -/
def migrateIssues (skipUpdates : Bool)
    (items : List (Issue × IssueEnv)) : RunState :=
  runMigration skipUpdates items initialRunState

/-- The printed line Total issues processed, src/index.js line 378: the
sum of the processed and skipped counters. -/
def summaryTotal (st : RunState) : Nat :=
  st.processed + st.skipped

/-- True exactly on the done outcome. -/
def IssueOutcome.isDone : IssueOutcome → Bool
  | .done _ => true
  | _ => false

/-- True exactly on the skipped outcome. -/
def IssueOutcome.isSkipped : IssueOutcome → Bool
  | .skippedExisting _ => true
  | _ => false

/-- Concatenation of the text runs of one block, the reference rendering
the description claim speaks about. -/
def concatTexts : List String → String
  | [] => ""
  | s :: rest => s ++ concatTexts rest

/-- A single structured-error body with the given identifier and details
object. -/
def singleErrorBody (ident : String) (det : JsVal) : JsVal :=
  .obj [("_type", .str "Error"),
        ("errorIdentifier", .str ident),
        ("_embedded", .obj [("details", det)])]

/-- A composite multiple-errors body embedding the given sub-errors. -/
def multiErrorBody (subs : List JsVal) : JsVal :=
  .obj [("_type", .str "Error"),
        ("errorIdentifier", .str multipleErrorsId),
        ("_embedded", .obj [("errors", .arr subs)])]

/-- A malformed composite body: a recognized Error envelope signalling
multiple errors but carrying no _embedded field at all. -/
def malformedMultiBody : JsVal :=
  .obj [("_type", .str "Error"),
        ("errorIdentifier", .str multipleErrorsId)]

/-- A property constraint violation on the given attribute, wrapped as a
failure response. -/
def constraintViolationOn (attr : String) : JsVal :=
  wrapResp (singleErrorBody propertyConstraintViolationId
    (.obj [("attribute", .str attr)]))

/-- A concrete environment whose issue is already present in the
skip-mode cache as work package 42. -/
def envCachedHit : IssueEnv :=
  ⟨some 42, .ok none, .ok (), .ok 0, .ok 0, .ok 0, none, none,
    .ok (), .ok (), .ok ()⟩

/-- A concrete environment whose existence lookup throws. -/
def envLookupBoom : IssueEnv :=
  ⟨none, .error (.str "boom"), .ok (), .ok 0, .ok 0, .ok 0, none, none,
    .ok (), .ok (), .ok ()⟩

/-- A concrete environment that creates work package 33 on the first
attempt and then fails during attachment sync. -/
def envSubFail : IssueEnv :=
  ⟨none, .ok none, .ok (), .ok 0, .ok 33, .ok 0, none, none,
    .error (.str "atterr"), .ok (), .ok ()⟩

/-- A concrete issue used by the run witnesses. -/
def issueOne : Issue := ⟨"PROJ-1", .null⟩

/-- A second concrete issue used by the run witnesses. -/
def issueTwo : Issue := ⟨"PROJ-2", .null⟩

/-- A looked-up field weighs strictly less than the object holding it. -/
theorem jsW_lookup_lt {k : String} {v : JsVal} :
    ∀ {fs : List (String × JsVal)},
      objLookup fs k = some v → jsW v < jsW (.obj fs)
  | [], h => by simp [objLookup] at h
  | (k1, v1) :: rest, h => by
    simp only [objLookup] at h
    by_cases hk : k1 = k
    · rw [if_pos hk] at h
      injection h with h
      subst h
      simp only [jsW, jsWFields]
      omega
    · rw [if_neg hk] at h
      have ih := jsW_lookup_lt h
      simp only [jsW, jsWFields] at ih ⊢
      omega

/-- A value whose _type compares loosely equal to the string Error must be
an object: every other shape yields undefined for that property. -/
theorem obj_of_typeTag {d : JsVal}
    (h : looseEqStr (jsPropOpt d "_type") "Error" = true) :
    ∃ fs, d = JsVal.obj fs := by
  cases d with
  | obj fs => exact ⟨fs, rfl⟩
  | undefined => simp [jsPropOpt, JsVal.isNullish, looseEqStr] at h
  | null => simp [jsPropOpt, JsVal.isNullish, looseEqStr] at h
  | bool b => simp [jsPropOpt, JsVal.isNullish, jsProp, looseEqStr] at h
  | num n => simp [jsPropOpt, JsVal.isNullish, jsProp, looseEqStr] at h
  | str s => simp [jsPropOpt, JsVal.isNullish, jsProp, looseEqStr] at h
  | arr xs => simp [jsPropOpt, JsVal.isNullish, jsProp, looseEqStr] at h

/-- Property access never increases the weight. -/
theorem jsW_jsProp_le (v : JsVal) (k : String) : jsW (jsProp v k) ≤ jsW v := by
  cases v with
  | obj fs =>
    cases hl : objLookup fs k with
    | none => simp [jsProp, hl, jsW]
    | some w =>
      have h := jsW_lookup_lt hl
      simpa [jsProp, hl] using le_of_lt h
  | arr xs => by_cases hk : k = "length" <;> simp [jsProp, hk, jsW]
  | str s => by_cases hk : k = "length" <;> simp [jsProp, hk, jsW]
  | undefined => simp [jsProp, jsW]
  | null => simp [jsProp, jsW]
  | bool b => simp [jsProp, jsW]
  | num n => simp [jsProp, jsW]

/-- An element weighs at most the weight of its list. -/
theorem jsW_mem_le {x : JsVal} :
    ∀ {l : List JsVal}, x ∈ l → jsW x ≤ jsWList l
  | [], h => by simp at h
  | y :: rest, h => by
    rcases List.mem_cons.mp h with h | h
    · subst h
      simp only [jsWList]
      omega
    · have ih := jsW_mem_le h
      simp only [jsWList]
      omega

/-- One-character strings weigh nothing, so a string iterated by a for..of
loop contributes no weight. -/
theorem jsWList_map_char (l : List Char) :
    jsWList (l.map fun c => JsVal.str (String.mk [c])) = 0 := by
  induction l with
  | nil => rfl
  | cons c rest ih => simp [jsWList, jsW, ih]

/-- The items produced by iterating a value weigh at most the value. -/
theorem jsWList_iterate_le {v : JsVal} {items : List JsVal}
    (h : jsIterate v = .ok items) : jsWList items ≤ jsW v := by
  cases v with
  | arr xs =>
    injection h with h
    subst h
    simp only [jsW]
    omega
  | str s =>
    injection h with h
    subst h
    simp [jsWList_map_char, jsW]
  | undefined => simp [jsIterate] at h
  | null => simp [jsIterate] at h
  | bool b => simp [jsIterate] at h
  | num n => simp [jsIterate] at h
  | obj fs => simp [jsIterate] at h

/-- The sub-errors reached by the composite branch of the classifier weigh
strictly less than the body they came from. -/
theorem jsWList_items_lt {d : JsVal} {items : List JsVal}
    (hT : looseEqStr (jsPropOpt d "_type") "Error" = true)
    (hE : (jsProp d "_embedded").isNullish = false)
    (hIt : jsIterate (jsProp (jsProp d "_embedded") "errors") = .ok items) :
    jsWList items < jsW d := by
  obtain ⟨fs, rfl⟩ := obj_of_typeTag hT
  cases hl : objLookup fs "_embedded" with
  | none => simp [jsProp, hl, JsVal.isNullish] at hE
  | some emb =>
    have hemb : jsProp (JsVal.obj fs) "_embedded" = emb := by simp [jsProp, hl]
    rw [hemb] at hIt
    have h1 : jsW emb < jsW (JsVal.obj fs) := jsW_lookup_lt hl
    have h2 : jsWList items ≤ jsW (jsProp emb "errors") := jsWList_iterate_le hIt
    have h3 : jsW (jsProp emb "errors") ≤ jsW emb := jsW_jsProp_le emb "errors"
    omega

/-- Pointwise equal classifiers classify a sub-error list identically. -/
theorem getErrorsLoop_congr {f g : JsVal → Except JsErr (List ErrEntry)} :
    ∀ {l : List JsVal}, (∀ x ∈ l, f x = g x) →
      getErrorsLoop f l = getErrorsLoop g l
  | [], _ => rfl
  | x :: rest, h => by
    have hx := h x (by simp)
    have hr := getErrorsLoop_congr (l := rest) fun y hy => h y (by simp [hy])
    simp only [getErrorsLoop, hx, hr]

/-- Any fuel beyond the weight of the body yields the same classification:
the fuel parameter is invisible once large enough. -/
theorem getErrorsDataF_stable :
    ∀ (f1 : Nat) (d : JsVal) (f2 : Nat), jsW d < f1 → jsW d < f2 →
      getErrorsDataF f1 d = getErrorsDataF f2 d := by
  intro f1
  induction f1 with
  | zero => exact fun d f2 h1 _ => absurd h1 (Nat.not_lt_zero _)
  | succ n ih =>
    intro d f2 h1 h2
    cases f2 with
    | zero => exact absurd h2 (Nat.not_lt_zero _)
    | succ m =>
      cases hT : looseEqStr (jsPropOpt d "_type") "Error" with
      | false => simp [getErrorsDataF, hT]
      | true =>
        cases hM : looseEqStr (jsProp d "errorIdentifier") multipleErrorsId with
        | false => simp [getErrorsDataF, hT, hM]
        | true =>
          cases hE : (jsProp d "_embedded").isNullish with
          | true => simp [getErrorsDataF, hT, hM, hE]
          | false =>
            cases hIt : jsIterate (jsProp (jsProp d "_embedded") "errors") with
            | error er => simp [getErrorsDataF, hT, hM, hE, hIt]
            | ok items =>
              have hlt : jsWList items < jsW d := jsWList_items_lt hT hE hIt
              have hcong : ∀ sub ∈ items,
                  getErrorsDataF n sub = getErrorsDataF m sub := by
                intro sub hs
                have hsub := jsW_mem_le hs
                exact ih sub m (by omega) (by omega)
              simp only [getErrorsDataF, hT, hM, hE, hIt]
              simp only [Bool.false_eq_true, if_false, if_true]
              exact getErrorsLoop_congr hcong

/-- Sufficient fuel can be replaced by the canonical bound. -/
theorem getErrorsDataF_eq {fuelAmount : Nat} {d : JsVal}
    (h : jsW d < fuelAmount) :
    getErrorsDataF fuelAmount d = getErrorsData d :=
  getErrorsDataF_stable fuelAmount d (jsW d + 1) h (Nat.lt_succ_self _)

/-- The loop never invents a fuel exhaustion of its own. -/
theorem getErrorsLoop_ne_fuel {f : JsVal → Except JsErr (List ErrEntry)} :
    ∀ {l : List JsVal}, (∀ x ∈ l, f x ≠ .error .fuel) →
      getErrorsLoop f l ≠ .error .fuel
  | [], _ => by simp [getErrorsLoop]
  | x :: rest, h => by
    simp only [getErrorsLoop]
    cases hx : f x with
    | error er =>
      cases er with
      | typeError => simp
      | fuel => exact absurd hx (h x (by simp))
    | ok es =>
      cases hr : getErrorsLoop f rest with
      | error er2 =>
        have hrec := getErrorsLoop_ne_fuel (l := rest)
          fun y hy => h y (by simp [hy])
        rw [hr] at hrec
        cases er2 with
        | typeError => simp
        | fuel => exact absurd rfl hrec
      | ok tail => simp

/-- With fuel above the weight of the body, the classifier never reports
fuel exhaustion. -/
theorem getErrorsDataF_ne_fuel :
    ∀ (f1 : Nat) (d : JsVal), jsW d < f1 →
      getErrorsDataF f1 d ≠ .error .fuel := by
  intro f1
  induction f1 with
  | zero => exact fun d h => absurd h (Nat.not_lt_zero _)
  | succ n ih =>
    intro d h1
    cases hT : looseEqStr (jsPropOpt d "_type") "Error" with
    | false => simp [getErrorsDataF, hT]
    | true =>
      cases hM : looseEqStr (jsProp d "errorIdentifier") multipleErrorsId with
      | false =>
        cases hE : (jsProp d "_embedded").isNullish with
        | true => simp [getErrorsDataF, hT, hM, hE]
        | false => simp [getErrorsDataF, hT, hM, hE]
      | true =>
        cases hE : (jsProp d "_embedded").isNullish with
        | true => simp [getErrorsDataF, hT, hM, hE]
        | false =>
          cases hIt : jsIterate (jsProp (jsProp d "_embedded") "errors") with
          | error er =>
            cases er with
            | typeError => simp [getErrorsDataF, hT, hM, hE, hIt]
            | fuel => simp [jsIterate] at hIt; split at hIt <;> simp_all
          | ok items =>
            have hlt : jsWList items < jsW d := jsWList_items_lt hT hE hIt
            simp only [getErrorsDataF, hT, hM, hE, hIt]
            simp only [Bool.false_eq_true, if_false, if_true]
            exact getErrorsLoop_ne_fuel fun sub hs =>
              ih sub (by have := jsW_mem_le hs; omega)

/-- The classifier itself never raises the fuel marker: its only own
exception is the TypeError. -/
theorem getErrors_ne_fuel (e : JsVal) : getErrors e ≠ .error .fuel :=
  getErrorsDataF_ne_fuel (jsW (responseBody e) + 1) (responseBody e)
    (Nat.lt_succ_self _)

/-- A body whose _type is not loosely equal to Error classifies to the
empty list. -/
theorem getErrorsData_notError {d : JsVal}
    (h : looseEqStr (jsPropOpt d "_type") "Error" = false) :
    getErrorsData d = .ok [] := by
  simp [getErrorsData, getErrorsDataF, h]

/-- An Error envelope with a nullish _embedded raises a TypeError, in both
the composite and the single branch. -/
theorem getErrorsData_embNullish {d : JsVal}
    (hT : looseEqStr (jsPropOpt d "_type") "Error" = true)
    (hE : (jsProp d "_embedded").isNullish = true) :
    getErrorsData d = .error .typeError := by
  cases hM : looseEqStr (jsProp d "errorIdentifier") multipleErrorsId with
  | true => simp [getErrorsData, getErrorsDataF, hT, hM, hE]
  | false => simp [getErrorsData, getErrorsDataF, hT, hM, hE]

/-- A single recognized envelope with a present _embedded classifies to
the one-element list holding its identifier and its details. -/
theorem getErrorsData_single {d : JsVal}
    (hT : looseEqStr (jsPropOpt d "_type") "Error" = true)
    (hM : looseEqStr (jsProp d "errorIdentifier") multipleErrorsId = false)
    (hE : (jsProp d "_embedded").isNullish = false) :
    getErrorsData d =
      .ok [⟨jsProp d "errorIdentifier",
            jsProp (jsProp d "_embedded") "details"⟩] := by
  simp [getErrorsData, getErrorsDataF, hT, hM, hE]

/-- A composite envelope whose embedded errors field is an array
classifies by classifying every sub-error with the full classifier. -/
theorem getErrorsData_multi {d : JsVal} {subs : List JsVal}
    (hT : looseEqStr (jsPropOpt d "_type") "Error" = true)
    (hM : looseEqStr (jsProp d "errorIdentifier") multipleErrorsId = true)
    (hE : (jsProp d "_embedded").isNullish = false)
    (hErrs : jsProp (jsProp d "_embedded") "errors" = .arr subs) :
    getErrorsData d = getErrorsLoop getErrorsData subs := by
  have hIt : jsIterate (jsProp (jsProp d "_embedded") "errors") = .ok subs := by
    rw [hErrs]; rfl
  have hlt := jsWList_items_lt hT hE hIt
  have step1 : getErrorsData d = getErrorsLoop (getErrorsDataF (jsW d)) subs := by
    simp only [getErrorsData, getErrorsDataF, hT, hM, hE, hIt]
    simp
  rw [step1]
  exact getErrorsLoop_congr fun sub hs =>
    getErrorsDataF_eq (lt_of_le_of_lt (jsW_mem_le hs) hlt)

/-- When every sub-error classifies successfully, the loop returns the
concatenation of the per-sub-error results, in order. -/
theorem getErrorsLoop_flatten {f : JsVal → Except JsErr (List ErrEntry)}
    {subs : List JsVal} {results : List (List ErrEntry)}
    (h : List.Forall₂ (fun s r => f s = .ok r) subs results) :
    getErrorsLoop f subs = .ok results.flatten := by
  induction h with
  | nil => rfl
  | cons hx hrest ih => simp [getErrorsLoop, hx, ih]

/-- The recursive call of the source rebuilds a response wrapper around a
sub-error; classifying the wrapper is classifying the sub-error body. -/
theorem getErrors_wrapResp (sub : JsVal) :
    getErrors (wrapResp sub) = getErrorsData sub := rfl

/-- Unfolding of the binding count over a cons cell. -/
theorem indexCount_cons (p : String × Int) (m : List (String × Int))
    (k : String) :
    indexCount (p :: m) k = indexCount m k + (if p.1 = k then 1 else 0) := by
  by_cases h : p.1 = k <;> simp [indexCount, List.filter_cons, h]

/-- A key bound nowhere has count zero. -/
theorem count_zero_of_forall {k : String} :
    ∀ {m : List (String × Int)}, (∀ p ∈ m, p.1 ≠ k) → indexCount m k = 0
  | [], _ => rfl
  | p :: rest, h => by
    have ih := count_zero_of_forall (m := rest) fun q hq => h q (by simp [hq])
    have hp := h p (by simp)
    simp [indexCount_cons, hp, ih]

/-- Distinct keys bound each key at most once. -/
theorem count_le_one_of_nodup {k : String} :
    ∀ {m : List (String × Int)}, keysNodup m → indexCount m k ≤ 1
  | [], _ => by simp [indexCount]
  | p :: rest, h => by
    simp only [keysNodup, List.map_cons, List.nodup_cons] at h
    by_cases hp : p.1 = k
    · have h0 : indexCount rest k = 0 := by
        refine count_zero_of_forall fun q hq hqk => h.1 ?_
        rw [hp, ← hqk]
        exact List.mem_map_of_mem Prod.fst hq
      simp [indexCount_cons, hp, h0]
    · have ih := count_le_one_of_nodup (k := k) (m := rest) h.2
      simp [indexCount_cons, hp]
      omega

/-- The count distributes over appending. -/
theorem indexCount_append (m1 m2 : List (String × Int)) (k : String) :
    indexCount (m1 ++ m2) k = indexCount m1 k + indexCount m2 k := by
  simp [indexCount, List.filter_append]

/-- Map.set appends when the key is absent. -/
theorem mapSet_of_not_any {m : List (String × Int)} {k : String} {v : Int}
    (h : (m.any fun p => p.1 = k) = false) :
    mapSet m k v = m ++ [(k, v)] := by
  simp [mapSet, h]

/-- Map.set overwrites in place when the key is present. -/
theorem mapSet_of_any {m : List (String × Int)} {k : String} {v : Int}
    (h : (m.any fun p => p.1 = k) = true) :
    mapSet m k v = m.map fun p => if p.1 = k then (k, v) else p := by
  simp [mapSet, h]

/-- Overwriting does nothing on entries with other keys. -/
theorem map_overwrite_id {k : String} {v : Int} :
    ∀ {m : List (String × Int)}, (∀ p ∈ m, p.1 ≠ k) →
      (m.map fun p => if p.1 = k then (k, v) else p) = m
  | [], _ => rfl
  | p :: rest, h => by
    have ih := map_overwrite_id (k := k) (v := v) (m := rest)
      fun q hq => h q (by simp [hq])
    simp [List.map_cons, h p (by simp), ih]

/-- Overwriting a present key leaves exactly one binding of it. -/
theorem count_overwrite_one {k : String} {v : Int} :
    ∀ {m : List (String × Int)}, keysNodup m →
      (m.any fun p => p.1 = k) = true →
      indexCount (m.map fun p => if p.1 = k then (k, v) else p) k = 1
  | [], _, hA => by simp at hA
  | p :: rest, h, hA => by
    simp only [keysNodup, List.map_cons, List.nodup_cons] at h
    by_cases hp : p.1 = k
    · have hforall : ∀ q ∈ rest, q.1 ≠ k := by
        intro q hq hqk
        exact h.1 (by rw [hp, ← hqk]; exact List.mem_map_of_mem Prod.fst hq)
      rw [List.map_cons, if_pos hp, map_overwrite_id hforall]
      simp [indexCount_cons, count_zero_of_forall hforall]
    · have hA2 : (rest.any fun p => p.1 = k) = true := by
        simpa [List.any_cons, hp] using hA
      have ih := count_overwrite_one (k := k) (v := v) (m := rest) h.2 hA2
      rw [List.map_cons, if_neg hp]
      simp [indexCount_cons, hp, ih]

/-- Overwriting one key never changes the count of another. -/
theorem count_overwrite_other {k : String} {v : Int} {k2 : String}
    (h : k2 ≠ k) :
    ∀ {m : List (String × Int)},
      indexCount (m.map fun p => if p.1 = k then (k, v) else p) k2 =
        indexCount m k2
  | [] => rfl
  | p :: rest => by
    have ih := count_overwrite_other (k := k) (v := v) h (m := rest)
    by_cases hp : p.1 = k
    · rw [List.map_cons, if_pos hp]
      have hk2 : ¬(k = k2) := fun hh => h hh.symm
      have hp2 : ¬(p.1 = k2) := by rw [hp]; exact hk2
      simp [indexCount_cons, hk2, hp2, ih]
    · rw [List.map_cons, if_neg hp]
      simp [indexCount_cons, ih]

/-- Map.set leaves exactly one binding of the written key. -/
theorem indexCount_mapSet_self {m : List (String × Int)} {k : String}
    {v : Int} (h : keysNodup m) : indexCount (mapSet m k v) k = 1 := by
  cases hA : (m.any fun p => p.1 = k) with
  | false =>
    rw [mapSet_of_not_any hA, indexCount_append]
    have h0 : indexCount m k = 0 := by
      apply count_zero_of_forall
      intro p hp hpk
      have hx : (m.any fun p => p.1 = k) = true :=
        List.any_eq_true.mpr ⟨p, hp, by simp [hpk]⟩
      rw [hx] at hA
      exact Bool.true_eq_false.mp hA
    rw [h0]
    simp [indexCount]
  | true =>
    rw [mapSet_of_any hA]
    exact count_overwrite_one h hA

/-- Map.set never changes the count of another key. -/
theorem indexCount_mapSet_other {m : List (String × Int)} {k : String}
    {v : Int} {k2 : String} (h : k2 ≠ k) :
    indexCount (mapSet m k v) k2 = indexCount m k2 := by
  cases hA : (m.any fun p => p.1 = k) with
  | false =>
    rw [mapSet_of_not_any hA, indexCount_append]
    have hk2 : ¬((k, v).1 = k2) := fun hh => h (hh.symm)
    simp [indexCount, hk2]
  | true =>
    rw [mapSet_of_any hA]
    exact count_overwrite_other h

/-- Overwriting preserves the key list itself. -/
theorem keys_overwrite {k : String} {v : Int} :
    ∀ {m : List (String × Int)},
      (m.map fun p => if p.1 = k then (k, v) else p).map Prod.fst =
        m.map Prod.fst
  | [] => rfl
  | p :: rest => by
    have ih := keys_overwrite (k := k) (v := v) (m := rest)
    by_cases hp : p.1 = k
    · rw [List.map_cons, if_pos hp]
      simp [ih, hp]
    · rw [List.map_cons, if_neg hp]
      simp [ih]

/-- Map.set preserves distinctness of the keys. -/
theorem keysNodup_mapSet {m : List (String × Int)} {k : String} {v : Int}
    (h : keysNodup m) : keysNodup (mapSet m k v) := by
  cases hA : (m.any fun p => p.1 = k) with
  | false =>
    rw [mapSet_of_not_any hA]
    have hk : k ∉ m.map Prod.fst := by
      intro hk
      rcases List.mem_map.mp hk with ⟨p, hp, hpk⟩
      have : (m.any fun p => p.1 = k) = true :=
        List.any_eq_true.mpr ⟨p, hp, by simp [hpk]⟩
      rw [this] at hA
      exact Bool.true_eq_false.mp hA
    simp only [keysNodup, List.map_append, List.map_cons, List.map_nil]
    rw [List.nodup_append]
    refine ⟨h, List.nodup_singleton _, ?_⟩
    intro a ha hb
    have hab : a = k := by simpa using hb
    subst hab
    exact hk ha
  | true =>
    rw [mapSet_of_any hA]
    simpa only [keysNodup, keys_overwrite] using h

/-- Map.get finds the value just written. -/
theorem indexLookup_mapSet_self {k : String} {v : Int} :
    ∀ {m : List (String × Int)}, indexLookup (mapSet m k v) k = some v := by
  intro m
  cases hA : (m.any fun p => p.1 = k) with
  | false =>
    rw [mapSet_of_not_any hA]
    induction m with
    | nil => simp [indexLookup]
    | cons p rest ih =>
      simp only [List.any_cons, Bool.or_eq_false_iff] at hA
      have hp : ¬(p.1 = k) := by simpa using hA.1
      rw [List.cons_append]
      obtain ⟨k1, v1⟩ := p
      simp only [indexLookup]
      rw [if_neg hp]
      exact ih hA.2
  | true =>
    rw [mapSet_of_any hA]
    induction m with
    | nil => simp at hA
    | cons p rest ih =>
      by_cases hp : p.1 = k
      · rw [List.map_cons, if_pos hp]
        simp [indexLookup]
      · have hA2 : (rest.any fun q => q.1 = k) = true := by
          simpa [List.any_cons, hp] using hA
        rw [List.map_cons, if_neg hp]
        obtain ⟨k1, v1⟩ := p
        simp only [indexLookup]
        rw [if_neg (by simpa using hp)]
        exact ih hA2

/-- Map.get on another key is unchanged by Map.set. -/
theorem indexLookup_mapSet_other {k : String} {v : Int} {k2 : String}
    (h : k2 ≠ k) :
    ∀ {m : List (String × Int)},
      indexLookup (mapSet m k v) k2 = indexLookup m k2 := by
  intro m
  cases hA : (m.any fun p => p.1 = k) with
  | false =>
    rw [mapSet_of_not_any hA]
    induction m with
    | nil =>
      have hne : ¬(k = k2) := fun hh => h hh.symm
      simp [indexLookup, hne]
    | cons p rest ih =>
      simp only [List.any_cons, Bool.or_eq_false_iff] at hA
      obtain ⟨k1, v1⟩ := p
      rw [List.cons_append]
      simp only [indexLookup]
      by_cases hk : k1 = k2
      · rw [if_pos hk, if_pos hk]
      · rw [if_neg hk, if_neg hk]
        exact ih hA.2
  | true =>
    rw [mapSet_of_any hA]
    induction m with
    | nil => rfl
    | cons p rest ih =>
      obtain ⟨k1, v1⟩ := p
      by_cases hp : k1 = k
      · rw [List.map_cons]
        simp only [if_pos hp]
        simp only [indexLookup]
        rw [if_neg (fun hh => h hh.symm), if_neg (by rw [hp]; exact fun hh => h hh.symm)]
        by_cases hA2 : (rest.any fun q => q.1 = k) = true
        · exact ih hA2
        · rw [map_overwrite_id]
          intro q hq hqk
          exact hA2 (List.any_eq_true.mpr ⟨q, hq, by simp [hqk]⟩)
      · rw [List.map_cons]
        simp only [if_neg hp]
        simp only [indexLookup]
        by_cases hk : k1 = k2
        · rw [if_pos hk, if_pos hk]
        · rw [if_neg hk, if_neg hk]
          by_cases hA2 : (rest.any fun q => q.1 = k) = true
          · exact ih hA2
          · rw [map_overwrite_id]
            intro q hq hqk
            exact hA2 (List.any_eq_true.mpr ⟨q, hq, by simp [hqk]⟩)

/-- The index after one iteration: the entry of the trace is written, the
index is otherwise untouched. -/
theorem stepIssue_index (skip : Bool) (st : RunState) (x : Issue × IssueEnv) :
    (stepIssue skip st x).index =
      match (processIssue skip x.2).mapEntry with
      | some wid => mapSet st.index x.1.key wid
      | none => st.index := by
  cases hm : (processIssue skip x.2).mapEntry <;>
    cases ho : (processIssue skip x.2).outcome <;>
      simp [stepIssue, hm, ho]

/-- One iteration increments the counter matching its terminal state and
no other. -/
theorem stepIssue_counters (skip : Bool) (st : RunState)
    (x : Issue × IssueEnv) :
    (stepIssue skip st x).processed =
      st.processed +
        (if (processIssue skip x.2).outcome.isDone then 1 else 0) ∧
    (stepIssue skip st x).skipped =
      st.skipped +
        (if (processIssue skip x.2).outcome.isSkipped then 1 else 0) ∧
    (stepIssue skip st x).errors =
      st.errors +
        (if (processIssue skip x.2).outcome.isErrored then 1 else 0) := by
  cases hm : (processIssue skip x.2).mapEntry <;>
    cases ho : (processIssue skip x.2).outcome <;>
      simp [stepIssue, hm, ho, IssueOutcome.isDone, IssueOutcome.isSkipped,
        IssueOutcome.isErrored]

/-- The loop is one iteration followed by the loop on the remaining
issues: an issue never stops the run. -/
theorem runMigration_cons (skip : Bool) (x : Issue × IssueEnv)
    (rest : List (Issue × IssueEnv)) (st : RunState) :
    runMigration skip (x :: rest) st =
      runMigration skip rest (stepIssue skip st x) := rfl

/-- Splitting a run at any point. -/
theorem runMigration_append (skip : Bool) (l1 l2 : List (Issue × IssueEnv))
    (st : RunState) :
    runMigration skip (l1 ++ l2) st =
      runMigration skip l2 (runMigration skip l1 st) :=
  List.foldl_append _ _ _ _

/-- The three counters at the end of a run count the terminal states of
the processed issues. -/
theorem runMigration_counters (skip : Bool) :
    ∀ (items : List (Issue × IssueEnv)) (st : RunState),
      (runMigration skip items st).processed =
        st.processed +
          items.countP (fun x => (processIssue skip x.2).outcome.isDone) ∧
      (runMigration skip items st).skipped =
        st.skipped +
          items.countP (fun x => (processIssue skip x.2).outcome.isSkipped) ∧
      (runMigration skip items st).errors =
        st.errors +
          items.countP (fun x => (processIssue skip x.2).outcome.isErrored)
  | [], st => by simp [runMigration]
  | x :: rest, st => by
    obtain ⟨ih1, ih2, ih3⟩ :=
      runMigration_counters skip rest (stepIssue skip st x)
    obtain ⟨hs1, hs2, hs3⟩ := stepIssue_counters skip st x
    rw [runMigration_cons]
    cases ho : (processIssue skip x.2).outcome <;>
      simp [ih1, ih2, ih3, hs1, hs2, hs3, List.countP_cons, ho,
        IssueOutcome.isDone, IssueOutcome.isSkipped,
        IssueOutcome.isErrored] <;>
      omega

/-- The error counter never decreases as the run proceeds. -/
theorem errors_mono (skip : Bool) :
    ∀ (items : List (Issue × IssueEnv)) (st : RunState),
      st.errors ≤ (runMigration skip items st).errors
  | [], _ => le_refl _
  | x :: rest, st => by
    have h1 := (stepIssue_counters skip st x).2.2
    have h2 := errors_mono skip rest (stepIssue skip st x)
    rw [runMigration_cons]
    have h3 : st.errors ≤ (stepIssue skip st x).errors := by
      rw [h1]; exact Nat.le_add_right _ _
    exact le_trans h3 h2

/-- One iteration preserves distinctness of the index keys. -/
theorem keysNodup_step (skip : Bool) (st : RunState) (x : Issue × IssueEnv)
    (h : keysNodup st.index) : keysNodup (stepIssue skip st x).index := by
  rw [stepIssue_index]
  cases hm : (processIssue skip x.2).mapEntry with
  | none => simpa [hm] using h
  | some wid =>
    simp only [hm]
    exact keysNodup_mapSet h

/-- The whole run preserves distinctness of the index keys. -/
theorem keysNodup_run (skip : Bool) :
    ∀ (items : List (Issue × IssueEnv)) (st : RunState),
      keysNodup st.index → keysNodup (runMigration skip items st).index
  | [], _, h => h
  | x :: rest, st, h => by
    rw [runMigration_cons]
    exact keysNodup_run skip rest _ (keysNodup_step skip st x h)

/-- A key bound exactly once stays bound exactly once for the rest of the
run. -/
theorem indexCount_run_of_one (skip : Bool) :
    ∀ (items : List (Issue × IssueEnv)) (st : RunState) (k : String),
      keysNodup st.index → indexCount st.index k = 1 →
      indexCount (runMigration skip items st).index k = 1
  | [], _, _, _, h1 => h1
  | x :: rest, st, k, hn, h1 => by
    rw [runMigration_cons]
    have hstep := keysNodup_step skip st x hn
    have h1' : indexCount (stepIssue skip st x).index k = 1 := by
      rw [stepIssue_index]
      cases hm : (processIssue skip x.2).mapEntry with
      | none => simpa [hm] using h1
      | some wid =>
        simp only [hm]
        by_cases hk : x.1.key = k
        · subst hk
          exact indexCount_mapSet_self hn
        · rw [indexCount_mapSet_other fun hh => hk hh.symm]
          exact h1
    exact indexCount_run_of_one skip rest _ k hstep h1'

/-- A binding survives the rest of the run when no later issue carries the
same key. -/
theorem indexLookup_run_other (skip : Bool) (k : String) :
    ∀ (items : List (Issue × IssueEnv)) (st : RunState),
      (∀ x ∈ items, x.1.key ≠ k) →
      indexLookup (runMigration skip items st).index k =
        indexLookup st.index k
  | [], _, _ => rfl
  | x :: rest, st, h => by
    rw [runMigration_cons]
    have hrest := indexLookup_run_other skip k rest (stepIssue skip st x)
      fun y hy => h y (by simp [hy])
    rw [hrest, stepIssue_index]
    cases hm : (processIssue skip x.2).mapEntry with
    | none => simp [hm]
    | some wid =>
      simp only [hm]
      exact indexLookup_mapSet_other (Ne.symm (h x (by simp)))

/-- A completed or skipped issue always leaves an index entry behind. -/
theorem mapEntry_of_counted {skip : Bool} {env : IssueEnv}
    (h : (processIssue skip env).outcome.isCounted = true) :
    ∃ wid, (processIssue skip env).mapEntry = some wid := by
  cases skip with
  | true =>
    cases hc : env.cached with
    | some wid => exact ⟨wid, by simp [processIssue, hc]⟩
    | none =>
      cases ht : env.translate with
      | error e => simp [processIssue, hc, ht, IssueOutcome.isCounted] at h
      | ok u =>
        cases hcr : (createWithRemediation env.createFirst env.createSecond
            env.asgId env.respId).result with
        | error th =>
          simp [processIssue, hc, ht, hcr, IssueOutcome.isCounted] at h
        | ok wpId =>
          cases hs : subEntitySync env with
          | error e =>
            exact ⟨wpId, by simp [processIssue, hc, ht, hcr, afterUpsert, hs]⟩
          | ok u2 =>
            exact ⟨wpId, by simp [processIssue, hc, ht, hcr, afterUpsert, hs]⟩
  | false =>
    cases hl : env.lookup with
    | error e => simp [processIssue, hl, IssueOutcome.isCounted] at h
    | ok existing =>
      cases existing with
      | some wid =>
        cases ht : env.translate with
        | error e => simp [processIssue, hl, ht, IssueOutcome.isCounted] at h
        | ok u =>
          cases hu : env.update with
          | error e =>
            simp [processIssue, hl, ht, hu, IssueOutcome.isCounted] at h
          | ok wpId =>
            cases hs : subEntitySync env with
            | error e =>
              exact ⟨wpId, by simp [processIssue, hl, ht, hu, afterUpsert, hs]⟩
            | ok u2 =>
              exact ⟨wpId, by simp [processIssue, hl, ht, hu, afterUpsert, hs]⟩
      | none =>
        cases ht : env.translate with
        | error e => simp [processIssue, hl, ht, IssueOutcome.isCounted] at h
        | ok u =>
          cases hcr : (createWithRemediation env.createFirst env.createSecond
              env.asgId env.respId).result with
          | error th =>
            simp [processIssue, hl, ht, hcr, IssueOutcome.isCounted] at h
          | ok wpId =>
            cases hs : subEntitySync env with
            | error e =>
              exact ⟨wpId,
                by simp [processIssue, hl, ht, hcr, afterUpsert, hs]⟩
            | ok u2 =>
              exact ⟨wpId,
                by simp [processIssue, hl, ht, hcr, afterUpsert, hs]⟩

/-- Strict string comparison characterised. -/
theorem jsStrictEqStr_iff {v : JsVal} {s : String} :
    jsStrictEqStr v s = true ↔ v = JsVal.str s := by
  cases v <;> simp [jsStrictEqStr]

/-- The includes test of the remediation filter holds exactly when some
classified entry carries the property constraint violation identifier
together with the looked-for attribute string. -/
theorem includesStr_remediable_iff (entries : List ErrEntry) (s : String) :
    includesStr (remediableAttrs entries) s = true ↔
      ∃ en ∈ entries,
        looseEqStr en.error propertyConstraintViolationId = true ∧
          jsPropOpt en.details "attribute" = JsVal.str s := by
  rw [includesStr, List.any_eq_true]
  constructor
  · rintro ⟨v, hv, hstr⟩
    rw [jsStrictEqStr_iff] at hstr
    subst hstr
    rcases List.mem_map.mp hv with ⟨en, hen, hv2⟩
    by_cases hc : looseEqStr en.error propertyConstraintViolationId = true
    · rw [if_pos hc] at hv2
      exact ⟨en, hen, hc, hv2⟩
    · rw [if_neg hc] at hv2
      exact absurd hv2 (by simp)
  · rintro ⟨en, hen, hc, hattr⟩
    refine ⟨JsVal.str s, ?_, by simp [jsStrictEqStr]⟩
    exact List.mem_map.mpr ⟨en, hen, by rw [if_pos hc, hattr]⟩

/-- Flattening singleton results gives one entry per sub-error. -/
theorem flatten_length_of_singles :
    ∀ (results : List (List ErrEntry)), (∀ r ∈ results, r.length = 1) →
      results.flatten.length = results.length
  | [], _ => rfl
  | r :: rest, h => by
    have ih := flatten_length_of_singles rest fun y hy => h y (by simp [hy])
    simp [List.flatten_cons, ih, h r (by simp)]
    omega

/-- Joining the text runs with the empty separator concatenates them. -/
theorem jsJoin_map_str : ∀ (ts : List String),
    jsJoin (ts.map JsVal.str) "" = concatTexts ts
  | [] => rfl
  | [t] => by simp [jsJoin, jsElemToStr, concatTexts]
  | t1 :: t2 :: rest => by
    have ih := jsJoin_map_str (t2 :: rest)
    simp only [List.map_cons] at ih ⊢
    rw [jsJoin, concatTexts, ih]
    simp [jsElemToStr]

/-- Canonical inline runs render to their text values. -/
theorem renderInlines_map : ∀ (ts : List String),
    renderInlines (ts.map mkInline) = .ok (ts.map JsVal.str)
  | [] => rfl
  | t :: rest => by
    have ih := renderInlines_map rest
    simp [renderInlines, mkInline, JsVal.isNullish, jsProp, objLookup, ih]

/-- A canonical block renders to the concatenation of its runs. -/
theorem renderBlock_mk (ts : List String) :
    renderBlock (mkBlock ts) = .ok (concatTexts ts) := by
  simp [renderBlock, mkBlock, JsVal.isNullish, jsProp, objLookup,
    renderInlines_map ts, jsJoin_map_str]

/-- Canonical blocks render in order. -/
theorem renderBlocks_mk : ∀ (bs : List (List String)),
    renderBlocks (bs.map mkBlock) = .ok (bs.map concatTexts)
  | [] => rfl
  | b :: rest => by
    simp [renderBlocks, renderBlock_mk, renderBlocks_mk rest]

/-- C1: for every failure response, the error classifier returns a flat
list preserving order: on a composite envelope whose errorIdentifier is
the MultipleErrors identifier and which embeds sub-errors, it returns the
concatenation of classifying each sub-error, one classification per
sub-error in order, of length N when every sub-error classifies to a
single entry; on a single recognized error envelope it returns the
one-element list of (errorIdentifier, details); on any response whose
body is not a recognized structured-error envelope it returns the empty
list. -/
theorem classifier_flattening :
    (∀ (e : JsVal) (subs : List JsVal) (results : List (List ErrEntry)),
       looseEqStr (jsPropOpt (responseBody e) "_type") "Error" = true →
       looseEqStr (jsProp (responseBody e) "errorIdentifier")
         multipleErrorsId = true →
       (jsProp (responseBody e) "_embedded").isNullish = false →
       jsProp (jsProp (responseBody e) "_embedded") "errors" = .arr subs →
       List.Forall₂ (fun sub r => getErrors (wrapResp sub) = .ok r)
         subs results →
       getErrors e = .ok results.flatten ∧ results.length = subs.length ∧
         ((∀ r ∈ results, r.length = 1) →
           results.flatten.length = subs.length)) ∧
    (∀ (e : JsVal),
       looseEqStr (jsPropOpt (responseBody e) "_type") "Error" = true →
       looseEqStr (jsProp (responseBody e) "errorIdentifier")
         multipleErrorsId = false →
       (jsProp (responseBody e) "_embedded").isNullish = false →
       getErrors e = .ok [⟨jsProp (responseBody e) "errorIdentifier",
         jsProp (jsProp (responseBody e) "_embedded") "details"⟩]) ∧
    (∀ (e : JsVal),
       looseEqStr (jsPropOpt (responseBody e) "_type") "Error" = false →
       getErrors e = .ok []) := by
  refine ⟨?_, ?_, ?_⟩
  · intro e subs results hT hM hE hErrs hsubs
    have hmulti := getErrorsData_multi hT hM hE hErrs
    have hflat : getErrorsLoop getErrorsData subs = .ok results.flatten :=
      getErrorsLoop_flatten (hsubs.imp fun sub r hr => by
        rwa [getErrors_wrapResp] at hr)
    have hlen := hsubs.length_eq
    refine ⟨by rw [getErrors, hmulti, hflat], hlen.symm, ?_⟩
    intro hsingles
    rw [flatten_length_of_singles results hsingles, ← hlen]
  · intro e hT hM hE
    rw [getErrors]
    exact getErrorsData_single hT hM hE
  · intro e hT
    rw [getErrors]
    exact getErrorsData_notError hT

/-- Witness for C1 at a concrete composite envelope holding two single
sub-errors, at a concrete single envelope, and at a concrete
unrecognized response. -/
theorem classifier_flattening_witness :
    (looseEqStr (jsPropOpt (responseBody (wrapResp (multiErrorBody
       [singleErrorBody propertyConstraintViolationId (.str "d1"),
        singleErrorBody "urn:x" (.str "d2")]))) "_type") "Error" = true ∧
     getErrors (wrapResp (multiErrorBody
       [singleErrorBody propertyConstraintViolationId (.str "d1"),
        singleErrorBody "urn:x" (.str "d2")])) =
       .ok [⟨.str propertyConstraintViolationId, .str "d1"⟩,
            ⟨.str "urn:x", .str "d2"⟩]) ∧
    (getErrors (wrapResp (singleErrorBody "urn:y" (.str "d3"))) =
       .ok [⟨.str "urn:y", .str "d3"⟩]) ∧
    getErrors (JsVal.str "not an envelope") = .ok [] := by
  have h1 := classifier_flattening.1
    (wrapResp (multiErrorBody
      [singleErrorBody propertyConstraintViolationId (.str "d1"),
       singleErrorBody "urn:x" (.str "d2")]))
    [singleErrorBody propertyConstraintViolationId (.str "d1"),
     singleErrorBody "urn:x" (.str "d2")]
    [[⟨.str propertyConstraintViolationId, .str "d1"⟩],
     [⟨.str "urn:x", .str "d2"⟩]]
    rfl rfl rfl rfl
    (.cons rfl (.cons rfl .nil))
  have h2 := classifier_flattening.2.1
    (wrapResp (singleErrorBody "urn:y" (.str "d3"))) rfl rfl rfl
  have h3 := classifier_flattening.2.2 (JsVal.str "not an envelope") rfl
  exact ⟨⟨rfl, by simpa using h1.1⟩, by simpa using h2, h3⟩

/-- C3 counterexample: the claim asserts the classifier never throws, but
on a response whose body carries _type Error with the MultipleErrors
identifier and no _embedded field, getErrors raises a TypeError (the
source dereferences _embedded.errors without a guard). -/
theorem classifier_throws_cex :
    getErrors (wrapResp malformedMultiBody) = .error .typeError := rfl

/-- C3 (amended): the classifier is total except on Error envelopes with
a nullish _embedded: on every input it either returns a list or throws a
TypeError; whenever the body is not a recognized Error envelope it
returns the empty list without throwing; but when the body has _type
Error and a nullish _embedded it throws a TypeError instead of degrading
to the empty list. -/
theorem classifier_totality_amended :
    (∀ e : JsVal, getErrors e = .error .typeError ∨
      ∃ l, getErrors e = .ok l) ∧
    (∀ e : JsVal,
      looseEqStr (jsPropOpt (responseBody e) "_type") "Error" = false →
      getErrors e = .ok []) ∧
    (∀ e : JsVal,
      looseEqStr (jsPropOpt (responseBody e) "_type") "Error" = true →
      (jsProp (responseBody e) "_embedded").isNullish = true →
      getErrors e = .error .typeError) := by
  refine ⟨?_, ?_, ?_⟩
  · intro e
    cases hge : getErrors e with
    | ok l => exact .inr ⟨l, rfl⟩
    | error er =>
      cases er with
      | typeError => exact .inl rfl
      | fuel => exact absurd hge (getErrors_ne_fuel e)
  · intro e h
    rw [getErrors]
    exact getErrorsData_notError h
  · intro e hT hE
    rw [getErrors]
    exact getErrorsData_embNullish hT hE

/-- Witness for the amended C3 at a concrete unrecognized response and at
a concrete single-error envelope missing its _embedded field. -/
theorem classifier_totality_amended_witness :
    (looseEqStr (jsPropOpt (responseBody (JsVal.str "nope")) "_type")
       "Error" = false ∧
     getErrors (JsVal.str "nope") = .ok []) ∧
    (looseEqStr (jsPropOpt (responseBody (wrapResp (JsVal.obj
       [("_type", JsVal.str "Error"),
        ("errorIdentifier", JsVal.str "urn:other")]))) "_type")
       "Error" = true ∧
     (jsProp (responseBody (wrapResp (JsVal.obj
       [("_type", JsVal.str "Error"),
        ("errorIdentifier", JsVal.str "urn:other")]))) "_embedded").isNullish
       = true ∧
     getErrors (wrapResp (JsVal.obj
       [("_type", JsVal.str "Error"),
        ("errorIdentifier", JsVal.str "urn:other")])) =
       .error .typeError) := by
  refine ⟨⟨rfl, classifier_totality_amended.2.1 _ rfl⟩,
    rfl, rfl, classifier_totality_amended.2.2 _ rfl rfl⟩

/-- C6: for every failing wrapped operation, when no classified entry
carries the property constraint violation identifier together with an
attribute in the remediable set of that operation (assignee or
responsible for creation, user for watcher addition), no membership grant
is performed, the operation is not retried, and the original failure is
re-raised unchanged. -/
theorem nonremediable_reraise :
    (∀ (e : JsVal) (second : Except JsVal Int) (asgId respId : Option Int)
       (entries : List ErrEntry),
       getErrors e = .ok entries →
       (∀ en ∈ entries,
         ¬(looseEqStr en.error propertyConstraintViolationId = true ∧
           (jsPropOpt en.details "attribute" = JsVal.str "assignee" ∨
            jsPropOpt en.details "attribute" = JsVal.str "responsible"))) →
       createWithRemediation (.error e) second asgId respId =
         ⟨.error (.js e), 1, []⟩) ∧
    (∀ (e : JsVal) (second : Except JsVal Unit) (watcherId : Int)
       (entries : List ErrEntry),
       getErrors e = .ok entries →
       (∀ en ∈ entries,
         ¬(looseEqStr en.error propertyConstraintViolationId = true ∧
           jsPropOpt en.details "attribute" = JsVal.str "user")) →
       addWatcherWithRemediation (.error e) second watcherId =
         ⟨.error (.js e), 1, []⟩) := by
  constructor
  · intro e second a r entries hge hnone
    have hA : includesStr (remediableAttrs entries) "assignee" = false := by
      cases hI : includesStr (remediableAttrs entries) "assignee" with
      | false => rfl
      | true =>
        rcases (includesStr_remediable_iff entries "assignee").mp hI with
          ⟨en, hen, h1, h2⟩
        exact absurd ⟨h1, Or.inl h2⟩ (hnone en hen)
    have hR : includesStr (remediableAttrs entries) "responsible" = false := by
      cases hI : includesStr (remediableAttrs entries) "responsible" with
      | false => rfl
      | true =>
        rcases (includesStr_remediable_iff entries "responsible").mp hI with
          ⟨en, hen, h1, h2⟩
        exact absurd ⟨h1, Or.inr h2⟩ (hnone en hen)
    simp [createWithRemediation, hge, hA, hR]
  · intro e second w entries hge hnone
    have hU : includesStr (remediableAttrs entries) "user" = false := by
      cases hI : includesStr (remediableAttrs entries) "user" with
      | false => rfl
      | true =>
        rcases (includesStr_remediable_iff entries "user").mp hI with
          ⟨en, hen, h1, h2⟩
        exact absurd ⟨h1, h2⟩ (hnone en hen)
    simp [addWatcherWithRemediation, hge, hU]

/-- Witness for C6 at a concrete constraint violation on the attribute
status, remediable for neither operation. -/
theorem nonremediable_reraise_witness :
    getErrors (constraintViolationOn "status") =
      .ok [⟨.str propertyConstraintViolationId,
            .obj [("attribute", .str "status")]⟩] ∧
    createWithRemediation (.error (constraintViolationOn "status"))
        (.ok 9) (some 1) (some 2) =
      ⟨.error (.js (constraintViolationOn "status")), 1, []⟩ ∧
    addWatcherWithRemediation (.error (constraintViolationOn "status"))
        (.ok ()) 4 =
      ⟨.error (.js (constraintViolationOn "status")), 1, []⟩ := by
  have hn1 : ∀ en ∈ ([⟨.str propertyConstraintViolationId,
      .obj [("attribute", .str "status")]⟩] : List ErrEntry),
      ¬(looseEqStr en.error propertyConstraintViolationId = true ∧
        (jsPropOpt en.details "attribute" = JsVal.str "assignee" ∨
         jsPropOpt en.details "attribute" = JsVal.str "responsible")) := by
    intro en hen
    simp only [List.mem_singleton] at hen
    subst hen
    rintro ⟨h1, h2 | h2⟩ <;> simp [jsPropOpt, JsVal.isNullish, jsProp,
      objLookup] at h2
  have hn2 : ∀ en ∈ ([⟨.str propertyConstraintViolationId,
      .obj [("attribute", .str "status")]⟩] : List ErrEntry),
      ¬(looseEqStr en.error propertyConstraintViolationId = true ∧
        jsPropOpt en.details "attribute" = JsVal.str "user") := by
    intro en hen
    simp only [List.mem_singleton] at hen
    subst hen
    rintro ⟨h1, h2⟩
    simp [jsPropOpt, JsVal.isNullish, jsProp, objLookup] at h2
  exact ⟨rfl,
    nonremediable_reraise.1 (constraintViolationOn "status") (.ok 9)
      (some 1) (some 2) _ rfl hn1,
    nonremediable_reraise.2 (constraintViolationOn "status") (.ok ()) 4
      _ rfl hn2⟩

/-- A grant oracle that accepts every key runs the grant loop to the end,
issuing one call per key in order with no exception. -/
theorem grantLoop_ok {grant : String → Except JsVal Unit} :
    ∀ {keys : List String}, (∀ k ∈ keys, grant k = .ok ()) →
      grantLoop grant keys = (keys, none)
  | [], _ => rfl
  | k :: ks, h => by
    have hk := h k (by simp)
    have ih := @grantLoop_ok grant ks fun y hy => h y (by simp [hy])
    simp [grantLoop, hk, ih]

/-- A rejected grant call ends the loop at its key: the keys before it
were issued successfully, the rejected key is the last one issued, the
keys after it are never issued, and the thrown value is reported. -/
theorem grantLoop_fail {grant : String → Except JsVal Unit} {k : String}
    {ge : JsVal} :
    ∀ {pre : List String} (post : List String),
      (∀ y ∈ pre, grant y = .ok ()) → grant k = .error ge →
      grantLoop grant (pre ++ k :: post) = (pre ++ [k], some ge)
  | [], post, _, hk => by simp [grantLoop, hk]
  | p :: ps, post, h, hk => by
    have hp := h p (by simp)
    have ih := @grantLoop_fail grant k ge ps post
      (fun y hy => h y (by simp [hy])) hk
    simp [grantLoop, hp, ih]

/-- The engine instance of the creation path is the faithful model at an
always-succeeding grant oracle. -/
theorem createWithRemediation_eq (first second : Except JsVal Int)
    (asgId respId : Option Int) :
    createWithRemediation first second asgId respId =
      createWithRemediationG first second (fun _ => .ok ()) asgId
        respId := by
  cases first with
  | ok wp => rfl
  | error e =>
    cases hge : getErrors e with
    | error er => simp [createWithRemediation, createWithRemediationG, hge]
    | ok entries =>
      cases hinc : (includesStr (remediableAttrs entries) "assignee" ||
          includesStr (remediableAttrs entries) "responsible") with
      | false =>
        simp [createWithRemediation, createWithRemediationG, hge, hinc]
      | true =>
        have hgl : grantLoop (fun _ => Except.ok ())
            (toAddKeys respId asgId) = (toAddKeys respId asgId, none) :=
          grantLoop_ok fun _ _ => rfl
        cases second <;>
          simp [createWithRemediation, createWithRemediationG, hge, hinc,
            hgl]

/-- The engine instance of the watcher path is the faithful model at a
succeeding grant. -/
theorem addWatcherWithRemediation_eq (first second : Except JsVal Unit)
    (watcherId : Int) :
    addWatcherWithRemediation first second watcherId =
      addWatcherWithRemediationG first second (.ok ()) watcherId := by
  cases first with
  | ok u => rfl
  | error e =>
    cases hge : getErrors e with
    | error er =>
      simp [addWatcherWithRemediation, addWatcherWithRemediationG, hge]
    | ok entries =>
      cases hinc : includesStr (remediableAttrs entries) "user" with
      | false =>
        simp [addWatcherWithRemediation, addWatcherWithRemediationG, hge,
          hinc]
      | true =>
        cases second <;>
          simp [addWatcherWithRemediation, addWatcherWithRemediationG,
            hge, hinc]

/-- C2 counterexample: the failing attributes of this creation failure
are exactly assignee, referencing only the assignee identity (user 1),
and every grant call succeeds, yet the code issues two membership
grants, for the keys 1 and 2: it always grants both the configured
assignee and responsible identities whenever either attribute fails, so
the grants are not one per distinct identity referenced by the failing
attributes. -/
theorem remediation_grants_cex :
    getErrors (constraintViolationOn "assignee") =
      .ok [⟨.str propertyConstraintViolationId,
            .obj [("attribute", .str "assignee")]⟩] ∧
    remediableAttrs [⟨.str propertyConstraintViolationId,
      .obj [("attribute", .str "assignee")]⟩] = [.str "assignee"] ∧
    (createWithRemediationG (.error (constraintViolationOn "assignee"))
      (.ok 7) (fun _ => .ok ()) (some 1) (some 2)).grants = ["1", "2"] ∧
    (createWithRemediationG (.error (constraintViolationOn "assignee"))
      (.ok 7) (fun _ => .ok ()) (some 1) (some 2)).grants ≠
      [jsIdKey (some 1)] := by
  refine ⟨rfl, rfl, rfl, ?_⟩
  rw [show (createWithRemediationG
    (.error (constraintViolationOn "assignee")) (.ok 7)
    (fun _ => Except.ok ()) (some 1) (some 2)).grants = ["1", "2"]
    from rfl]
  decide

/-- C2 (amended): every remediation-wrapped operation is invoked at most
2 times in total, one initial attempt plus at most one retry, no loop,
whatever the grant outcomes. On a remediable creation failure whose
membership grant calls all succeed, the grants are exactly the dedup of
the stringified configured assignee and responsible identities (a
missing identity contributing the key null), each granted exactly once
regardless of which of the two attributes actually failed, and the
operation is retried exactly once; when a grant call is rejected, the
remaining grants and the retry are skipped (the operation stays at one
invocation) and the grant failure propagates. On a remediable watcher
failure exactly one grant call is issued, for the watcher identity: the
retry happens when it succeeds and is skipped, the grant failure
propagating, when it is rejected. -/
theorem remediation_retry_bound :
    (∀ (first second : Except JsVal Int)
       (grant : String → Except JsVal Unit) (asgId respId : Option Int),
       (createWithRemediationG first second grant asgId respId).opCalls
         ≤ 2) ∧
    (∀ (first second : Except JsVal Unit) (grant : Except JsVal Unit)
       (watcherId : Int),
       (addWatcherWithRemediationG first second grant watcherId).opCalls
         ≤ 2) ∧
    (∀ (e : JsVal) (second : Except JsVal Int)
       (grant : String → Except JsVal Unit) (asgId respId : Option Int)
       (entries : List ErrEntry),
       getErrors e = .ok entries →
       (includesStr (remediableAttrs entries) "assignee" ||
         includesStr (remediableAttrs entries) "responsible") = true →
       (∀ k ∈ toAddKeys respId asgId, grant k = .ok ()) →
       (createWithRemediationG (.error e) second grant asgId
           respId).grants = toAddKeys respId asgId ∧
         (toAddKeys respId asgId).Nodup ∧
         (createWithRemediationG (.error e) second grant asgId
           respId).opCalls = 2) ∧
    (∀ (e : JsVal) (second : Except JsVal Int)
       (grant : String → Except JsVal Unit) (asgId respId : Option Int)
       (entries : List ErrEntry) (pre post : List String) (k : String)
       (ge : JsVal),
       getErrors e = .ok entries →
       (includesStr (remediableAttrs entries) "assignee" ||
         includesStr (remediableAttrs entries) "responsible") = true →
       toAddKeys respId asgId = pre ++ k :: post →
       (∀ y ∈ pre, grant y = .ok ()) →
       grant k = .error ge →
       createWithRemediationG (.error e) second grant asgId respId =
         ⟨.error (.js ge), 1, pre ++ [k]⟩) ∧
    (∀ (e : JsVal) (second : Except JsVal Unit) (watcherId : Int)
       (entries : List ErrEntry),
       getErrors e = .ok entries →
       includesStr (remediableAttrs entries) "user" = true →
       (addWatcherWithRemediationG (.error e) second (.ok ())
           watcherId).grants = [watcherId] ∧
         (addWatcherWithRemediationG (.error e) second (.ok ())
           watcherId).opCalls = 2) ∧
    (∀ (e : JsVal) (second : Except JsVal Unit) (watcherId : Int)
       (entries : List ErrEntry) (ge : JsVal),
       getErrors e = .ok entries →
       includesStr (remediableAttrs entries) "user" = true →
       addWatcherWithRemediationG (.error e) second (.error ge)
         watcherId = ⟨.error (.js ge), 1, [watcherId]⟩) := by
  refine ⟨?_, ?_, ?_, ?_, ?_, ?_⟩
  · intro first second grant asgId respId
    cases first with
    | ok wp => simp [createWithRemediationG]
    | error e =>
      cases hge : getErrors e with
      | error er => simp [createWithRemediationG, hge]
      | ok entries =>
        cases hinc : (includesStr (remediableAttrs entries) "assignee" ||
            includesStr (remediableAttrs entries) "responsible") with
        | false => simp [createWithRemediationG, hge, hinc]
        | true =>
          cases hgl : grantLoop grant (toAddKeys respId asgId) with
          | mk issued failure =>
            cases failure <;> cases second <;>
              simp [createWithRemediationG, hge, hinc, hgl]
  · intro first second grant w
    cases first with
    | ok u => simp [addWatcherWithRemediationG]
    | error e =>
      cases hge : getErrors e with
      | error er => simp [addWatcherWithRemediationG, hge]
      | ok entries =>
        cases hinc : includesStr (remediableAttrs entries) "user" with
        | false => simp [addWatcherWithRemediationG, hge, hinc]
        | true =>
          cases grant <;> cases second <;>
            simp [addWatcherWithRemediationG, hge, hinc]
  · intro e second grant asgId respId entries hge hinc hgrants
    have hgl : grantLoop grant (toAddKeys respId asgId) =
        (toAddKeys respId asgId, none) := grantLoop_ok hgrants
    have hnd : (toAddKeys respId asgId).Nodup := by
      simp only [toAddKeys]
      by_cases h12 : jsIdKey asgId = jsIdKey respId
      · rw [if_pos h12]
        exact List.nodup_singleton _
      · rw [if_neg h12]
        have h21 : jsIdKey respId ≠ jsIdKey asgId := fun hh => h12 hh.symm
        cases strToIndex? (jsIdKey respId) with
        | none =>
          cases strToIndex? (jsIdKey asgId) with
          | none => simp [h12, h21]
          | some n2 => simp [h12, h21]
        | some n1 =>
          cases strToIndex? (jsIdKey asgId) with
          | none => simp [h12, h21]
          | some n2 =>
            by_cases hlt : n2 < n1
            · simp [hlt, h12, h21]
            · simp [hlt, h12, h21]
    cases second <;>
      exact ⟨by simp [createWithRemediationG, hge, hinc, hgl], hnd,
        by simp [createWithRemediationG, hge, hinc, hgl]⟩
  · intro e second grant asgId respId entries pre post k ge hge hinc
      hsplit hpre hk
    have hgl := grantLoop_fail post hpre hk
    rw [← hsplit] at hgl
    simp [createWithRemediationG, hge, hinc, hgl]
  · intro e second w entries hge hinc
    cases second <;>
      exact ⟨by simp [addWatcherWithRemediationG, hge, hinc],
        by simp [addWatcherWithRemediationG, hge, hinc]⟩
  · intro e second w entries ge hge hinc
    simp [addWatcherWithRemediationG, hge, hinc]

/-- Witness for the amended C2 at concrete remediable failures: an
all-grants-succeed creation run, a creation run whose first grant call
is rejected, and a watcher run for each grant outcome. -/
theorem remediation_retry_bound_witness :
    getErrors (constraintViolationOn "responsible") =
      .ok [⟨.str propertyConstraintViolationId,
            .obj [("attribute", .str "responsible")]⟩] ∧
    (includesStr (remediableAttrs
        [⟨.str propertyConstraintViolationId,
          .obj [("attribute", .str "responsible")]⟩]) "assignee" ||
      includesStr (remediableAttrs
        [⟨.str propertyConstraintViolationId,
          .obj [("attribute", .str "responsible")]⟩]) "responsible")
      = true ∧
    (createWithRemediationG
        (.error (constraintViolationOn "responsible")) (.ok 5)
        (fun _ => .ok ()) (some 3) (some 3)).grants =
      toAddKeys (some 3) (some 3) ∧
    (createWithRemediationG
        (.error (constraintViolationOn "responsible")) (.ok 5)
        (fun _ => .ok ()) (some 3) (some 3)).opCalls = 2 ∧
    toAddKeys (some 2) (some 1) = [] ++ "1" :: ["2"] ∧
    createWithRemediationG (.error (constraintViolationOn "assignee"))
        (.ok 7)
        (fun k => if k = "1" then .error (.str "grantfail") else .ok ())
        (some 1) (some 2) =
      ⟨.error (.js (.str "grantfail")), 1, [] ++ ["1"]⟩ ∧
    (addWatcherWithRemediationG (.error (constraintViolationOn "user"))
        (.ok ()) (.ok ()) 8).grants = [8] ∧
    addWatcherWithRemediationG (.error (constraintViolationOn "user"))
        (.ok ()) (.error (.str "grantfail")) 8 =
      ⟨.error (.js (.str "grantfail")), 1, [8]⟩ ∧
    (addWatcherWithRemediationG (.error (constraintViolationOn "user"))
        (.ok ()) (.ok ()) 8).opCalls ≤ 2 := by
  have h3 := remediation_retry_bound.2.2.1
    (constraintViolationOn "responsible") (.ok 5) (fun _ => .ok ())
    (some 3) (some 3)
    [⟨.str propertyConstraintViolationId,
      .obj [("attribute", .str "responsible")]⟩] rfl rfl
    (fun k hk => rfl)
  have h4 := remediation_retry_bound.2.2.2.1
    (constraintViolationOn "assignee") (.ok 7)
    (fun k => if k = "1" then .error (.str "grantfail") else .ok ())
    (some 1) (some 2)
    [⟨.str propertyConstraintViolationId,
      .obj [("attribute", .str "assignee")]⟩] [] ["2"] "1"
    (.str "grantfail") rfl rfl rfl (by simp) rfl
  have h5 := remediation_retry_bound.2.2.2.2.1
    (constraintViolationOn "user") (.ok ()) 8
    [⟨.str propertyConstraintViolationId,
      .obj [("attribute", .str "user")]⟩] rfl rfl
  have h6 := remediation_retry_bound.2.2.2.2.2
    (constraintViolationOn "user") (.ok ()) 8
    [⟨.str propertyConstraintViolationId,
      .obj [("attribute", .str "user")]⟩] (.str "grantfail") rfl rfl
  have h2 := remediation_retry_bound.2.1
    (.error (constraintViolationOn "user")) (.ok ()) (.ok ()) 8
  exact ⟨rfl, rfl, h3.1, h3.2.2, rfl, h4, h5.1, h6, h2⟩

/-- Flag evaluation on the done outcome. -/
theorem isDone_done (w : Int) : (IssueOutcome.done w).isDone = true := rfl

/-- Flag evaluation on the skipped outcome. -/
theorem isDone_skip (w : Int) :
    (IssueOutcome.skippedExisting w).isDone = false := rfl

/-- Flag evaluation on the errored outcome. -/
theorem isDone_err (th : Thrown) :
    (IssueOutcome.errored th).isDone = false := rfl

/-- Skip flag evaluation on the done outcome. -/
theorem isSkipped_done (w : Int) :
    (IssueOutcome.done w).isSkipped = false := rfl

/-- Skip flag evaluation on the skipped outcome. -/
theorem isSkipped_skip (w : Int) :
    (IssueOutcome.skippedExisting w).isSkipped = true := rfl

/-- Skip flag evaluation on the errored outcome. -/
theorem isSkipped_err (th : Thrown) :
    (IssueOutcome.errored th).isSkipped = false := rfl

/-- Errored flag evaluation on the done outcome. -/
theorem isErrored_done (w : Int) :
    (IssueOutcome.done w).isErrored = false := rfl

/-- Errored flag evaluation on the skipped outcome. -/
theorem isErrored_skip (w : Int) :
    (IssueOutcome.skippedExisting w).isErrored = false := rfl

/-- Errored flag evaluation on the errored outcome. -/
theorem isErrored_err (th : Thrown) :
    (IssueOutcome.errored th).isErrored = true := rfl

/-- Every iteration ends in exactly one of the three terminal states, so
the three state counts sum to the batch length. -/
theorem countP_outcomes_partition (skip : Bool) :
    ∀ (items : List (Issue × IssueEnv)),
      items.countP (fun x => (processIssue skip x.2).outcome.isDone) +
        items.countP (fun x => (processIssue skip x.2).outcome.isSkipped) +
        items.countP (fun x => (processIssue skip x.2).outcome.isErrored) =
      items.length
  | [] => rfl
  | x :: rest => by
    have ih := countP_outcomes_partition skip rest
    cases ho : (processIssue skip x.2).outcome <;>
      simp [List.countP_cons, ho, isDone_done, isDone_skip, isDone_err,
        isSkipped_done, isSkipped_skip, isSkipped_err, isErrored_done,
        isErrored_skip, isErrored_err] <;>
      omega

/-- C4: at the end of every run, the returned output index holds exactly
one entry, keyed by the issue key, for each source issue of the batch
that reached the done or skipped state, skipped issues included. -/
theorem output_index_complete (skip : Bool)
    (items : List (Issue × IssueEnv)) (x : Issue × IssueEnv)
    (hx : x ∈ items)
    (hc : (processIssue skip x.2).outcome.isCounted = true) :
    indexCount (migrateIssues skip items).index x.1.key = 1 := by
  rcases List.append_of_mem hx with ⟨l1, l2, rfl⟩
  rw [migrateIssues, runMigration_append, runMigration_cons]
  have hn1 : keysNodup (runMigration skip l1 initialRunState).index :=
    keysNodup_run skip l1 _ (by simp [initialRunState, keysNodup])
  obtain ⟨wid, hwid⟩ := mapEntry_of_counted hc
  have hnd2 :=
    keysNodup_step skip (runMigration skip l1 initialRunState) x hn1
  have h1 : indexCount
      (stepIssue skip (runMigration skip l1 initialRunState) x).index
      x.1.key = 1 := by
    simp only [stepIssue_index, hwid]
    exact indexCount_mapSet_self hn1
  exact indexCount_run_of_one skip l2 _ x.1.key hnd2 h1

/-- Witness for C4 at a concrete one-issue run skipped from the cache. -/
theorem output_index_complete_witness :
    (issueOne, envCachedHit) ∈ [(issueOne, envCachedHit)] ∧
    (processIssue true envCachedHit).outcome.isCounted = true ∧
    indexCount (migrateIssues true [(issueOne, envCachedHit)]).index
      issueOne.key = 1 :=
  ⟨by simp, rfl,
    output_index_complete true [(issueOne, envCachedHit)]
      (issueOne, envCachedHit) (by simp) rfl⟩

/-- C5: every exception thrown while processing an issue is caught at the
per-issue boundary and becomes exactly one error-counter increment while
the other counters stay untouched, the loop continues with the next
issue, and the run always completes with every issue accounted for in
the summary counters. -/
theorem per_issue_isolation (skip : Bool)
    (items : List (Issue × IssueEnv)) :
    (migrateIssues skip items).errors =
      items.countP (fun x => (processIssue skip x.2).outcome.isErrored) ∧
    (migrateIssues skip items).processed +
      (migrateIssues skip items).skipped +
      (migrateIssues skip items).errors = items.length ∧
    (∀ (st : RunState) (x : Issue × IssueEnv)
       (rest : List (Issue × IssueEnv)),
       runMigration skip (x :: rest) st =
         runMigration skip rest (stepIssue skip st x)) ∧
    (∀ (st : RunState) (x : Issue × IssueEnv),
       (processIssue skip x.2).outcome.isErrored = true →
       (stepIssue skip st x).errors = st.errors + 1 ∧
       (stepIssue skip st x).processed = st.processed ∧
       (stepIssue skip st x).skipped = st.skipped) := by
  obtain ⟨h1, h2, h3⟩ := runMigration_counters skip items initialRunState
  refine ⟨?_, ?_, fun st x rest => runMigration_cons skip x rest st, ?_⟩
  · rw [migrateIssues, h3]
    simp [initialRunState]
  · rw [migrateIssues, h1, h2, h3]
    simp only [initialRunState, Nat.zero_add]
    exact countP_outcomes_partition skip items
  · intro st x hx
    obtain ⟨c1, c2, c3⟩ := stepIssue_counters skip st x
    cases ho : (processIssue skip x.2).outcome with
    | errored th =>
      rw [ho] at c1 c2 c3
      simp [isDone_err, isSkipped_err, isErrored_err] at c1 c2 c3
      exact ⟨c3, c1, c2⟩
    | done w =>
      rw [ho] at hx
      simp [isErrored_done] at hx
    | skippedExisting w =>
      rw [ho] at hx
      simp [isErrored_skip] at hx

/-- Witness for C5 at a concrete issue whose existence lookup throws. -/
theorem per_issue_isolation_witness :
    (processIssue false envLookupBoom).outcome.isErrored = true ∧
    (stepIssue false initialRunState (issueTwo, envLookupBoom)).errors =
      initialRunState.errors + 1 ∧
    (stepIssue false initialRunState (issueTwo, envLookupBoom)).processed =
      initialRunState.processed ∧
    (stepIssue false initialRunState (issueTwo, envLookupBoom)).skipped =
      initialRunState.skipped := by
  have h := (per_issue_isolation false []).2.2.2 initialRunState
    (issueTwo, envLookupBoom) rfl
  exact ⟨rfl, h.1, h.2.1, h.2.2⟩

/-- C7: in skip-updates mode, an issue found in the pre-fetched cache
issues no update call and no create call, ends in the skipped state
(incrementing only the skipped counter), and its cached work item id is
recorded in the output index under the issue key. -/
theorem skip_mode_skips (env : IssueEnv) (wid : Int)
    (h : env.cached = some wid) :
    processIssue true env = ⟨.skippedExisting wid, some wid, 0, 0⟩ ∧
    (∀ (st : RunState) (i : Issue),
      stepIssue true st (i, env) =
        { processed := st.processed, skipped := st.skipped + 1,
          errors := st.errors, index := mapSet st.index i.key wid }) ∧
    (∀ (st : RunState) (i : Issue),
      indexLookup (stepIssue true st (i, env)).index i.key = some wid) := by
  have h1 : processIssue true env =
      ⟨.skippedExisting wid, some wid, 0, 0⟩ := by
    simp [processIssue, h]
  refine ⟨h1, fun st i => ?_, fun st i => ?_⟩
  · simp [stepIssue, h1]
  · simp [stepIssue, h1, indexLookup_mapSet_self]

/-- Witness for C7 at a concrete cached issue. -/
theorem skip_mode_skips_witness :
    envCachedHit.cached = some 42 ∧
    processIssue true envCachedHit =
      ⟨.skippedExisting 42, some 42, 0, 0⟩ ∧
    stepIssue true initialRunState (issueOne, envCachedHit) =
      { processed := initialRunState.processed,
        skipped := initialRunState.skipped + 1,
        errors := initialRunState.errors,
        index := mapSet initialRunState.index issueOne.key 42 } ∧
    indexLookup (stepIssue true initialRunState
      (issueOne, envCachedHit)).index issueOne.key = some 42 := by
  have h := skip_mode_skips envCachedHit 42 rfl
  exact ⟨rfl, h.1, h.2.1 initialRunState issueOne,
    h.2.2 initialRunState issueOne⟩

/-- C8: the translated description is the plain-text rendering of the
structured document: the top-level blocks are walked, the text runs of
each block concatenated, the blocks joined with a single newline and the
whole trimmed; a null or absent document renders to the empty string; an
exception while walking the document yields the empty string instead of
propagating. -/
theorem description_rendering :
    (∀ (bs : List (List String)),
       convertAtlassianDocumentToText (mkDoc bs) =
         jsTrim (String.intercalate "\n" (bs.map concatTexts))) ∧
    convertAtlassianDocumentToText JsVal.null = "" ∧
    convertAtlassianDocumentToText JsVal.undefined = "" ∧
    (∀ (fs : List (String × JsVal)) (blocks : List JsVal) (er : JsErr),
       jsProp (JsVal.obj fs) "content" = .arr blocks →
       renderBlocks blocks = .error er →
       convertAtlassianDocumentToText (JsVal.obj fs) = "") ∧
    (∀ (i : Issue), workPackageDescription i =
      convertAtlassianDocumentToText i.description) := by
  refine ⟨?_, rfl, rfl, ?_, fun i => rfl⟩
  · intro bs
    simp [convertAtlassianDocumentToText, mkDoc, JsVal.isFalsy, jsProp,
      objLookup, renderBlocks_mk]
  · intro fs blocks er hc hr
    simp [convertAtlassianDocumentToText, JsVal.isFalsy, hc, hr]

/-- Witness for C8 at a concrete two-block document and at a concrete
document whose walk raises. -/
theorem description_rendering_witness :
    jsProp (JsVal.obj [("content", JsVal.arr [JsVal.null])]) "content" =
      JsVal.arr [JsVal.null] ∧
    renderBlocks [JsVal.null] = .error .typeError ∧
    convertAtlassianDocumentToText
      (JsVal.obj [("content", JsVal.arr [JsVal.null])]) = "" ∧
    convertAtlassianDocumentToText
      (mkDoc [["Hello ", "world"], ["second"]]) = "Hello world\nsecond" := by
  refine ⟨rfl, rfl,
    description_rendering.2.2.2.1 _ [JsVal.null] .typeError rfl rfl, ?_⟩
  rw [description_rendering.1 [["Hello ", "world"], ["second"]]]
  rfl

/-- C9: once a create or update step has succeeded, the index entry for
the issue is written before sub-entity sync starts; a subsequent
attachment, comment or watcher exception leaves that entry in the
returned index while the issue increments the error counter instead of
the processed counter. -/
theorem entry_persists_after_subsync_failure :
    (∀ (env : IssueEnv) (skip : Bool) (e : JsVal) (wpId : Int),
       (if skip then Except.ok env.cached else env.lookup) = .ok none →
       env.translate = .ok () →
       (createWithRemediation env.createFirst env.createSecond env.asgId
         env.respId).result = .ok wpId →
       subEntitySync env = .error e →
       processIssue skip env =
         ⟨.errored (.js e), some wpId, 0,
           (createWithRemediation env.createFirst env.createSecond
             env.asgId env.respId).opCalls⟩) ∧
    (∀ (env : IssueEnv) (e : JsVal) (wid wpId : Int),
       env.lookup = .ok (some wid) →
       env.translate = .ok () →
       env.update = .ok wpId →
       subEntitySync env = .error e →
       processIssue false env = ⟨.errored (.js e), some wpId, 1, 0⟩) ∧
    (∀ (skip : Bool) (l1 l2 : List (Issue × IssueEnv))
       (x : Issue × IssueEnv) (th : Thrown) (wpId : Int),
       (processIssue skip x.2).outcome = .errored th →
       (processIssue skip x.2).mapEntry = some wpId →
       (∀ y ∈ l2, y.1.key ≠ x.1.key) →
       indexLookup (migrateIssues skip (l1 ++ x :: l2)).index x.1.key =
           some wpId ∧
         1 ≤ (migrateIssues skip (l1 ++ x :: l2)).errors) := by
  refine ⟨?_, ?_, ?_⟩
  · intro env skip e wpId hres ht hcr hs
    cases skip with
    | true =>
      have hc : env.cached = none := by simpa using hres
      simp [processIssue, hc, ht, hcr, afterUpsert, hs]
    | false =>
      have hl : env.lookup = .ok none := by simpa using hres
      simp [processIssue, hl, ht, hcr, afterUpsert, hs]
  · intro env e wid wpId hl ht hu hs
    simp [processIssue, hl, ht, hu, afterUpsert, hs]
  · intro skip l1 l2 x th wpId ho hm hkeys
    constructor
    · rw [migrateIssues, runMigration_append, runMigration_cons]
      rw [indexLookup_run_other skip x.1.key l2 _ hkeys]
      simp only [stepIssue_index, hm]
      exact indexLookup_mapSet_self
    · rw [migrateIssues, runMigration_append, runMigration_cons]
      have h1 := (stepIssue_counters skip
        (runMigration skip l1 initialRunState) x).2.2
      rw [ho] at h1
      simp only [IssueOutcome.isErrored, if_true] at h1
      have h2 := errors_mono skip l2
        (stepIssue skip (runMigration skip l1 initialRunState) x)
      omega

/-- Witness for C9 at a concrete run whose only issue creates work
package 33 and then fails in attachment sync. -/
theorem entry_persists_witness :
    (if false then Except.ok envSubFail.cached else envSubFail.lookup) =
      .ok none ∧
    envSubFail.translate = .ok () ∧
    (createWithRemediation envSubFail.createFirst envSubFail.createSecond
      envSubFail.asgId envSubFail.respId).result = .ok 33 ∧
    subEntitySync envSubFail = .error (.str "atterr") ∧
    processIssue false envSubFail =
      ⟨.errored (.js (.str "atterr")), some 33, 0, 1⟩ ∧
    indexLookup (migrateIssues false [(issueTwo, envSubFail)]).index
      issueTwo.key = some 33 ∧
    1 ≤ (migrateIssues false [(issueTwo, envSubFail)]).errors := by
  have h1 := entry_persists_after_subsync_failure.1 envSubFail false
    (.str "atterr") 33 rfl rfl rfl rfl
  have h3 := entry_persists_after_subsync_failure.2.2 false [] []
    (issueTwo, envSubFail) (.js (.str "atterr")) 33
    (by rw [h1]) (by rw [h1]) (by simp)
  exact ⟨rfl, rfl, rfl, rfl, h1, h3.1, h3.2⟩

/-- C10: every iteration of the per-issue loop increments exactly one of
the three run counters, at the end of the run the three counters sum to
the number of iterated issues, and the printed total (processed plus
skipped) equals that number minus the errored issues. -/
theorem counters_partition (skip : Bool)
    (items : List (Issue × IssueEnv)) :
    (∀ (st : RunState) (x : Issue × IssueEnv),
      ((stepIssue skip st x).processed = st.processed + 1 ∧
        (stepIssue skip st x).skipped = st.skipped ∧
        (stepIssue skip st x).errors = st.errors) ∨
      ((stepIssue skip st x).processed = st.processed ∧
        (stepIssue skip st x).skipped = st.skipped + 1 ∧
        (stepIssue skip st x).errors = st.errors) ∨
      ((stepIssue skip st x).processed = st.processed ∧
        (stepIssue skip st x).skipped = st.skipped ∧
        (stepIssue skip st x).errors = st.errors + 1)) ∧
    (migrateIssues skip items).processed +
      (migrateIssues skip items).skipped +
      (migrateIssues skip items).errors = items.length ∧
    summaryTotal (migrateIssues skip items) =
      items.length - (migrateIssues skip items).errors := by
  have hsum : (migrateIssues skip items).processed +
      (migrateIssues skip items).skipped +
      (migrateIssues skip items).errors = items.length := by
    obtain ⟨h1, h2, h3⟩ := runMigration_counters skip items initialRunState
    rw [migrateIssues, h1, h2, h3]
    simp only [initialRunState, Nat.zero_add]
    exact countP_outcomes_partition skip items
  refine ⟨?_, hsum, ?_⟩
  · intro st x
    obtain ⟨c1, c2, c3⟩ := stepIssue_counters skip st x
    cases ho : (processIssue skip x.2).outcome with
    | done w =>
      rw [ho] at c1 c2 c3
      simp [isDone_done, isSkipped_done, isErrored_done] at c1 c2 c3
      exact Or.inl ⟨c1, c2, c3⟩
    | skippedExisting w =>
      rw [ho] at c1 c2 c3
      simp [isDone_skip, isSkipped_skip, isErrored_skip] at c1 c2 c3
      exact Or.inr (Or.inl ⟨c1, c2, c3⟩)
    | errored th =>
      rw [ho] at c1 c2 c3
      simp [isDone_err, isSkipped_err, isErrored_err] at c1 c2 c3
      exact Or.inr (Or.inr ⟨c1, c2, c3⟩)
  · rw [summaryTotal]
    omega

end OPJM
